import Mathlib

/-!
ntetris: a shallow embedding of the game-state engine of `src/main.cpp`.

Characters (`char`) are modelled by their numeric code as a `Nat`; the character
`'0'` is `48`, so a cell is *occupied* (`> '0'`) when its code exceeds `48` and the
seven piece codes `'1' .. '7'` are `49 .. 55`.  The codes the program stores are the
ASCII digits of the catalog, for which the comparison `> '0'` and the xor of `swap` on
`char` agree with those on `Nat`.  `vector<string>` (a pattern) and
`vector<vector<char>>` (the playfield) are lists of lists of codes.  The `int`
coordinates `player.x`, `player.y`, `r`, `c` are `Int`.

Indexing a `vector` or a `string` out of range is undefined behaviour in the source;
every function that indexes returns an `Option`, and `none` stands for such an access.
The one write through an iterator, `fill_n` in `onGameOver`, keeps the vector as it is at
an assignment past its end and records the index, so that the statements after it can be
followed.  The key handlers are followed as the compiled program runs them: their collision
test reads through `gridRead`, where a read out of range returns an arbitrary byte `oob r c`,
and what is proved of them holds for every `oob`.
-/

namespace NTetris

/-- A piece pattern, `vector<string>`. -/
abbrev Shape := List (List Nat)

/-- The playfield, `vector< vector<char> >`. -/
abbrev Grid := List (List Nat)

/-- Rotation direction, `enum class Direction { CW, CCW }`. -/
inductive Direction where
  | CW
  | CCW
  deriving DecidableEq, Repr

/-- The active piece, `struct Player`. -/
structure Player where
  x : Int
  y : Int
  shape : Shape
  deriving DecidableEq, Repr

/-- The members of `class Game` that the game-state engine uses; the times are in
milliseconds. -/
structure Game where
  aggr : List Nat
  nextShape : Nat
  dropSpeed : Int
  dropTime : Int
  runTime : Int
  lineCount : Nat
  grid : Grid
  player : Player
  deriving DecidableEq, Repr

/-- The code of the digit character `'0' + d`. -/
def digit (d : Nat) : Nat := 48 + d

/-- A four character string literal of digits, such as `"0440"`. -/
def str4 (a b c d : Nat) : List Nat := [digit a, digit b, digit c, digit d]

/-- The catalog `shapes` (main.cpp:33-41). -/
def shapes : List Shape :=
  [ [str4 0 0 0 0, str4 1 1 1 1, str4 0 0 0 0, str4 0 0 0 0],   -- I
    [str4 0 0 0 0, str4 2 2 2 0, str4 0 0 2 0, str4 0 0 0 0],   -- J
    [str4 0 0 0 0, str4 0 3 3 3, str4 0 3 0 0, str4 0 0 0 0],   -- L
    [str4 0 0 0 0, str4 0 4 4 0, str4 0 4 4 0, str4 0 0 0 0],   -- O
    [str4 0 0 0 0, str4 0 5 5 0, str4 5 5 0 0, str4 0 0 0 0],   -- S
    [str4 0 0 0 0, str4 6 6 6 0, str4 0 6 0 0, str4 0 0 0 0],   -- T
    [str4 0 0 0 0, str4 7 7 0 0, str4 0 7 7 0, str4 0 0 0 0] ]  -- Z

/-- The empty row `zeroes(10, '0')` (main.cpp:52). -/
def zeroes : List Nat := List.replicate 10 48

/-- The xor swap `swap(char& i, char& j) { i ^= j; j ^= i; i ^= j; }` (main.cpp:21), on two
distinct references: the pair of final values `(i, j)`. -/
def swap (i j : Nat) : Nat × Nat :=
  let i1 := i ^^^ j
  let j1 := j ^^^ i1
  let i2 := i1 ^^^ j1
  (i2, j1)

/-- Reading `m[r][c]`; `none` when an index is out of range. -/
def cellAt (m : List (List Nat)) (r c : Nat) : Option Nat :=
  match m[r]? with
  | some ln => ln[c]?
  | none => none

/-- The assignment `m[r][c] = v`; `none` when an index is out of range. -/
def setCell (m : List (List Nat)) (r c : Nat) (v : Nat) : Option (List (List Nat)) :=
  match m[r]? with
  | some ln => if c < ln.length then some (m.set r (ln.set c v)) else none
  | none => none

/-- The statement `if (row != col) swap(shape[col][row], shape[row][col]);`
(main.cpp:380 and 389). -/
def swapStep (row : Nat) (shape : Shape) (col : Nat) : Option Shape :=
  if row ≠ col then
    match cellAt shape col row, cellAt shape row col with
    | some i, some j =>
      match setCell shape col row (swap i j).1 with
      | some s => setCell s row col (swap i j).2
      | none => none
    | _, _ => none
  else some shape

/-- The inner loop `for (auto col = row; col < shape[row].size(); col++)` of `rotate`
with the body `swapStep`. -/
def swapRow (shape : Shape) (row : Nat) : Option Shape :=
  match shape[row]? with
  | some ln => (List.range' row (ln.length - row)).foldlM (swapStep row) shape
  | none => none

/-- The statement `reverse(shape[row].begin(), shape[row].end());`. -/
def reverseRow (shape : Shape) (row : Nat) : Option Shape :=
  match shape[row]? with
  | some ln => some (shape.set row ln.reverse)
  | none => none

/-- One pass of the outer loop of the `CW` case (main.cpp:378-382): the swaps of the row,
then the reversal of that row. -/
def rotateCWRow (shape : Shape) (row : Nat) : Option Shape :=
  match swapRow shape row with
  | some s => reverseRow s row
  | none => none

/-- The body of `Player::rotate` (main.cpp:375-394) on the pattern. -/
def rotateShape (shape : Shape) : Direction → Option Shape
  | .CW => (List.range shape.length).foldlM rotateCWRow shape
  | .CCW =>
    match (List.range shape.length).foldlM reverseRow shape with
    | some s => (List.range s.length).foldlM swapRow s
    | none => none

/-- The method `Player::rotate(Direction dir)`: it mutates `shape` and nothing else. -/
def Player.rotate (p : Player) (dir : Direction) : Option Player :=
  match rotateShape p.shape dir with
  | some s => some { p with shape := s }
  | none => none

/-- A pattern of 4 rows of 4 cells. -/
def Is4x4 (shape : Shape) : Prop :=
  shape.length = 4 ∧ ∀ ln ∈ shape, ln.length = 4

/-- A playfield of 20 rows of 10 cells. -/
def GridOK (grid : Grid) : Prop :=
  grid.length = 20 ∧ ∀ ln ∈ grid, ln.length = 10

/-- Every cell of the playfield holds one of the codes `'0' .. '7'`. -/
def CodesOK (m : List (List Nat)) : Prop :=
  ∀ ln ∈ m, ∀ c ∈ ln, 48 ≤ c ∧ c ≤ 55

/-- Playfield well-formedness: 20 rows, 10 cells a row, every cell a code `'0' .. '7'`. -/
def WellFormed (grid : Grid) : Prop :=
  GridOK grid ∧ CodesOK grid

/-- The cells `(row, col, shape[row][col])` in the order in which the loop nest
`for (row = 0; row < shape.size(); row++) for (col = 0; col < shape[row].size(); col++)`
of `collideShape`, `collideGrid` and `placeShape` visits them. -/
def cells (shape : Shape) : List (Nat × Nat × Nat) :=
  shape.enum.flatMap (fun rl => rl.2.enum.map (fun cc => (rl.1, cc.1, cc.2)))

/-- Reading `grid[r][c]` with `int` indices; `none` when an index is out of range (a negative
`int` converts to an index beyond every vector). -/
def gridAt (grid : Grid) (r c : Int) : Option Nat :=
  if 0 ≤ r ∧ 0 ≤ c then cellAt grid r.toNat c.toNat else none

/-- The assignment `grid[r][c] = v` with `int` indices; `none` when an index is out of range. -/
def gridSet (grid : Grid) (r c : Int) (v : Nat) : Option Grid :=
  if 0 ≤ r ∧ 0 ≤ c then setCell grid r.toNat c.toNat v else none

/-- The scan of `collideShape` over the cells still to visit: the test of main.cpp:151
`shape[row][col] > '0' && (r > 19 || (r > 0 && grid[r][c] > '0'))` with its short-circuit
order, returning `true` at the first cell that passes it. -/
def collideShapeScan (g : Game) : List (Nat × Nat × Nat) → Option Bool
  | [] => some false
  | (row, col, ch) :: rest =>
    let c := (col : Int) + g.player.x
    let r := (row : Int) + g.player.y
    if ch > 48 then
      if r > 19 then some true
      else if r > 0 then
        match gridAt g.grid r c with
        | some v => if v > 48 then some true else collideShapeScan g rest
        | none => none
      else collideShapeScan g rest
    else collideShapeScan g rest

/-- The method `collideShape` (main.cpp:146-155). -/
def collideShape (g : Game) (shape : Shape) : Option Bool :=
  collideShapeScan g (cells shape)

/-- The method `collideGrid` (main.cpp:156-165); it indexes only the pattern, inside the
bounds of its loops. -/
def collideGrid (g : Game) (shape : Shape) : Bool :=
  (cells shape).any (fun rc =>
    let c := (rc.2.1 : Int) + g.player.x
    let r := (rc.1 : Int) + g.player.y
    decide (rc.2.2 > 48) && (decide (r > 19) || decide (c < 0) || decide (c > 9)))

/-- The method `collideAll` (main.cpp:166-168): it ignores its argument and tests
`player.shape`, `collideShape` first. -/
def collideAll (g : Game) (_shape : Shape) : Option Bool :=
  match collideShape g g.player.shape with
  | some true => some true
  | some false => some (collideGrid g g.player.shape)
  | none => none

/-- The method `initGrid` (main.cpp:92-96): `grid.clear()` and 20 times
`grid.push_back(zeroes)`. -/
def initGrid (g : Game) : Game :=
  { g with grid := (List.range 20).foldl (fun grid _ => grid ++ [zeroes]) [] }

/-- The method `initShape` (main.cpp:119-125); `none` when `currentShape` is not an index of
`aggr` or of `shapes`. -/
def initShape (g : Game) (x y : Int) (currentShape : Nat) : Option Game :=
  match g.aggr[currentShape]?, shapes[currentShape]? with
  | some n, some shape =>
    some { g with aggr := g.aggr.set currentShape (n + 1), player := ⟨x, y, shape⟩ }
  | _, _ => none

/-- The method `getNextShape` (main.cpp:114-118); `rnd` is the value that
`distribution(generator)` draws. -/
def getNextShape (g : Game) (rnd : Nat) : Option Game :=
  match initShape g 4 (-3) g.nextShape with
  | some g1 => some { g1 with nextShape := rnd }
  | none => none

/-- How the loops of `placeShape` end: at `return onGameOver(gameover)`, or after the last
cell, where `getNextShape()` follows; each with the state reached at that point. -/
inductive Placed where
  | gameOver (g : Game)
  | locked (g : Game)
  deriving DecidableEq, Repr

/-- The state carried by an outcome of `placeShape`. -/
def Placed.game : Placed → Game
  | .gameOver g => g
  | .locked g => g

/-- Whether an outcome of `placeShape` is the call of `onGameOver`. -/
def Placed.over : Placed → Bool
  | .gameOver _ => true
  | .locked _ => false

/-- The scan of `placeShape` over the cells still to visit (main.cpp:204-209). -/
def placeScan (g : Game) : List (Nat × Nat × Nat) → Option Placed
  | [] => some (.locked g)
  | (row, col, ch) :: rest =>
    if ch > 48 then
      let r := (row : Int) + g.player.y
      let c := (col : Int) + g.player.x
      if r < 0 then some (.gameOver g)
      else
        match gridSet g.grid r c ch with
        | some grid => placeScan { g with grid := grid } rest
        | none => none
    else placeScan g rest

/-- The loops of the method `placeShape` (main.cpp:201-213), up to the call of `onGameOver`
or of `getNextShape` that ends it. -/
def placeShape (g : Game) (shape : Shape) : Option Placed :=
  placeScan g (cells shape)

/-- The test `all_of(row.begin(), row.end(), [](const char& c) { return c > '0'; })`. -/
def isFull (ln : List Nat) : Bool :=
  ln.all (fun c => decide (c > 48))

/-- The vector `cleared` of `clearLines` (main.cpp:216-220), of `unsigned short`. -/
def cleared (grid : Grid) : List Nat :=
  grid.enum.filterMap (fun rl => if isFull rl.2 then some (rl.1 % 65536) else none)

/-- The `for` loop of main.cpp:243-249: the first row that is full, if any. -/
def firstFull : Grid → Option Nat
  | [] => none
  | ln :: rest => if isFull ln then some 0 else (firstFull rest).map (· + 1)

/-- The loop `while (true)` of main.cpp:241-251: erase the first full row until no row is
full. -/
def eraseFullRows (grid : Grid) : Grid :=
  match h : firstFull grid with
  | some row => eraseFullRows (grid.eraseIdx row)
  | none => grid
termination_by grid.length
decreasing_by
  have lt : ∀ (gr : Grid) (k : Nat), firstFull gr = some k → k < gr.length := by
    intro gr
    induction gr with
    | nil => intro k hk; simp [firstFull] at hk
    | cons ln rest ih =>
      intro k hk
      simp only [firstFull] at hk
      split at hk
      · simp only [Option.some.injEq] at hk
        subst hk
        simp
      · cases hr : firstFull rest with
        | none => simp [hr] at hk
        | some j =>
          simp only [hr, Option.map_some', Option.some.injEq] at hk
          subst hk
          simpa using ih j hr
  have := lt grid row h
  simp only [List.length_eraseIdx, this, if_true]
  omega

/-- The loop `for (auto i = 0; i < clearedCount; i++) grid.insert(grid.begin(), zeroes);`. -/
def insertEmpties (clearedCount : Nat) (grid : Grid) : Grid :=
  (List.range clearedCount).foldl (fun gr _ => zeroes :: gr) grid

/-- The method `clearLines` (main.cpp:214-257) without its drawing: the returned count and
the state afterwards. `clearedCount` is an `unsigned short`. -/
def clearLines (g : Game) : Nat × Game :=
  let clearedCount := (cleared g.grid).length % 65536
  if clearedCount ≠ 0 then
    (clearedCount, { g with grid := insertEmpties clearedCount (eraseFullRows g.grid) })
  else (clearedCount, g)

/-- The statement `player.y++` (main.cpp:130, 308, 319). -/
def descend (g : Game) : Game :=
  { g with player := { g.player with y := g.player.y + 1 } }

/-- The statement `player.y--` (main.cpp:310, 320, 344). -/
def ascend (g : Game) : Game :=
  { g with player := { g.player with y := g.player.y - 1 } }

/-- How the lock check of the tick ends. -/
inductive LockCheck where
  | falling (g : Game)
  | placed (p : Placed)
  deriving DecidableEq, Repr

/-- The lock check of the tick (main.cpp:343-346):
`if (collideShape(player.shape)) { player.y--; placeShape(player.shape, gameover); }`. -/
def lockCheck (g : Game) : Option LockCheck :=
  match collideShape g g.player.shape with
  | some true =>
    match placeShape (ascend g) (ascend g).player.shape with
    | some p => some (.placed p)
    | none => none
  | some false => some (.falling g)
  | none => none

/-- Ticks in which gravity fires, repeated until the lock check places the piece: the descent
`player.y++` of `moveShape` (main.cpp:130), then the lock check. The result is the outcome
of `placeShape` with the number of descents made; `none` when the fuel runs out first or an
index is out of range. -/
def gravityUntilLock : Nat → Game → Option (Placed × Nat)
  | 0, _ => none
  | fuel + 1, g =>
    match lockCheck (descend g) with
    | some (.falling g1) =>
      match gravityUntilLock fuel g1 with
      | some (p, n) => some (p, n + 1)
      | none => none
    | some (.placed p) => some (p, 1)
    | none => none

/-- The loop of `case KEY_UP` (main.cpp:307-313):
`while (true) { player.y++; if (collideShape(player.shape)) { player.y--; break; } }`;
`none` when the fuel runs out first or an index is out of range. -/
def hardDropLoop : Nat → Game → Option Game
  | 0, _ => none
  | fuel + 1, g =>
    match collideShape (descend g) (descend g).player.shape with
    | some true => some (ascend (descend g))
    | some false => hardDropLoop fuel (descend g)
    | none => none

/-- The handler `case KEY_UP` (main.cpp:306-317): the loop, then
`placeShape(player.shape, gameover); continue;`, which ends the tick. -/
def keyUp (fuel : Nat) (g : Game) : Option Placed :=
  match hardDropLoop fuel g with
  | some g1 => placeShape g1 g1.player.shape
  | none => none

/-- A game on the empty playfield of `initGrid` with the usage counters `aggr(shapes.size(), 0)`
and the clock members of the constructor (main.cpp:50-59), before a piece is spawned. -/
def newGame (nextShape : Nat) : Game :=
  initGrid
    { aggr := List.replicate shapes.length 0, nextShape := nextShape, dropSpeed := 0,
      dropTime := 600, runTime := 0, lineCount := 0, grid := [], player := ⟨0, 0, []⟩ }

/-- Auxiliary to the statements about `placeShape`: the code that the scan of the cells `cs`
at the position `(x, y)` writes last to the grid cell `(R, C)`, if it writes there. -/
def written (x y : Int) : List (Nat × Nat × Nat) → Int → Int → Option Nat
  | [], _, _ => none
  | (row, col, ch) :: rest, R, C =>
    match written x y rest R C with
    | some v => some v
    | none => if ch > 48 ∧ (row : Int) + y = R ∧ (col : Int) + x = C then some ch else none

/-- The pattern cell `(row, col)` exists and holds the non-empty code `ch`
(`shape[row][col] > '0'`). -/
def Occupied (shape : Shape) (row col ch : Nat) : Prop :=
  cellAt shape row col = some ch ∧ ch > 48

/-- The test of main.cpp:151 passes at the pattern cell `(row, col)` holding `ch`, the grid
cell being in range when it is read. -/
def Hit (g : Game) (row col ch : Nat) : Prop :=
  ch > 48 ∧
    ((row : Int) + g.player.y > 19 ∨
      (0 < (row : Int) + g.player.y ∧ (row : Int) + g.player.y ≤ 19 ∧
        ∃ v, gridAt g.grid ((row : Int) + g.player.y) ((col : Int) + g.player.x) = some v ∧
          v > 48))

/-- The state `g` with `player.y` set to `y`, everything else as it is. -/
def setY (g : Game) (y : Int) : Game :=
  { g with player := { g.player with y := y } }

/-- The state of `newGame` with the given pattern as the active piece at `(x, y)`. -/
def gameAt (x y : Int) (shape : Shape) : Game :=
  { newGame 0 with player := ⟨x, y, shape⟩ }

/-- The `O` pattern of the catalog. -/
def shapeO : Shape := [str4 0 0 0 0, str4 0 4 4 0, str4 0 4 4 0, str4 0 0 0 0]

/-- The method `moveShape` (main.cpp:126-132) with its reference argument `dropClock`: the
state and the clock afterwards. `lineCount * 2` is a product of `unsigned int`, so it is taken
modulo `2^32` before it becomes a number of milliseconds. -/
def moveShape (g : Game) (dropClock : Int) : Game × Int :=
  let g1 := { g with dropSpeed := g.dropTime - ((g.lineCount * 2 % 4294967296 : Nat) : Int) }
  if dropClock > g1.dropSpeed then
    ({ g1 with player := { g1.player with y := g1.player.y + 1 } }, 0)
  else (g1, dropClock)

/-- The call `fill_n(first, n, value)` on a vector of counters, `first` at its begin: the
assignments `first[i] = value` for `i = 0, .., n - 1`, in this order. An assignment past the
end of the vector is undefined behaviour in the source; the model leaves the vector as it is
there and records the index `i` in the second component. -/
def fill_n (v : List Nat) (n value : Nat) : List Nat × List Nat :=
  (List.range n).foldl
    (fun s i => if i < s.1.length then (s.1.set i value, s.2) else (s.1, s.2 ++ [i])) (v, [])

/-- How `onGameOver` returns: the state, the reference argument `gameover`, and the indices
past the end of `aggr` that its `fill_n` assigned. -/
structure Menu where
  game : Game
  gameover : Bool
  overrun : List Nat
  deriving DecidableEq, Repr

/-- The menu loop of `onGameOver` (main.cpp:185-199) without its drawing. The list holds the
values that the successive calls of `getch()` return (`'q'` is 113, `'Q'` 81, `'r'` 114,
`'R'` 82), `rnd` is the value that `distribution(generator)` draws in `getNextShape`; `none`
when the list ends before a choice is made, or `getNextShape` indexes out of range. -/
def onGameOver (g : Game) (gameover : Bool) (rnd : Nat) : List Int → Option Menu
  | [] => none
  | key :: keys =>
    if key = 113 ∨ key = 81 then some ⟨g, true, []⟩
    else if key = 114 ∨ key = 82 then
      match getNextShape (initGrid { g with aggr := (fill_n g.aggr 8 0).1 }) rnd with
      | some g1 => some ⟨g1, gameover, (fill_n g.aggr 8 0).2⟩
      | none => none
    else onGameOver g gameover rnd keys

/-- The state `g` with `player.x` set to `x`, everything else as it is. -/
def setX (g : Game) (x : Int) : Game :=
  { g with player := { g.player with x := x } }

/-- Reading `grid[r][c]` as the compiled program does, without a bounds check: inside the
vectors it is the stored cell; at an index out of range it is whatever byte lies at that
address, which the model takes as the parameter `oob r c`. -/
def gridRead (oob : Int → Int → Nat) (grid : Grid) (r c : Int) : Nat :=
  match gridAt grid r c with
  | some v => v
  | none => oob r c

/-- The scan of `collideShape` (main.cpp:146-155) with the reads of `gridRead`: the same
test in the same order as `collideShapeScan`, with a value for every read. -/
def collideShapeScanWith (oob : Int → Int → Nat) (g : Game) : List (Nat × Nat × Nat) → Bool
  | [] => false
  | (row, col, ch) :: rest =>
    let c := (col : Int) + g.player.x
    let r := (row : Int) + g.player.y
    if ch > 48 then
      if r > 19 then true
      else if r > 0 then
        if gridRead oob g.grid r c > 48 then true else collideShapeScanWith oob g rest
      else collideShapeScanWith oob g rest
    else collideShapeScanWith oob g rest

/-- The method `collideAll` (main.cpp:166-168) with the reads of `gridRead`:
`collideShape(player.shape) || collideGrid(player.shape)`, its argument ignored. -/
def collideAllWith (oob : Int → Int → Nat) (g : Game) (_shape : Shape) : Bool :=
  collideShapeScanWith oob g (cells g.player.shape) || collideGrid g g.player.shape

/-- The handler `case KEY_LEFT` (main.cpp:296-300):
`player.x--; if (collideAll(player.shape)) player.x++;`. -/
def keyLeft (oob : Int → Int → Nat) (g : Game) : Game :=
  if collideAllWith oob (setX g (g.player.x - 1)) (setX g (g.player.x - 1)).player.shape then
    setX (setX g (g.player.x - 1)) ((setX g (g.player.x - 1)).player.x + 1)
  else setX g (g.player.x - 1)

/-- The handler `case KEY_RIGHT` (main.cpp:301-305):
`player.x++; if (collideAll(player.shape)) player.x--;`. -/
def keyRight (oob : Int → Int → Nat) (g : Game) : Game :=
  if collideAllWith oob (setX g (g.player.x + 1)) (setX g (g.player.x + 1)).player.shape then
    setX (setX g (g.player.x + 1)) ((setX g (g.player.x + 1)).player.x - 1)
  else setX g (g.player.x + 1)

/-- The handler `case KEY_DOWN` (main.cpp:318-322):
`player.y++; if (collideAll(player.shape)) player.y--;`. -/
def keyDown (oob : Int → Int → Nat) (g : Game) : Game :=
  if collideAllWith oob (descend g) (descend g).player.shape then ascend (descend g)
  else descend g

/-- The statement `player.rotate(dir)` on the state; `none` when the rotation indexes the
pattern out of range. -/
def rotatePlayer (g : Game) (dir : Direction) : Option Game :=
  match g.player.rotate dir with
  | some p => some { g with player := p }
  | none => none

/-- The handlers `case 'r': case 'R':` and `case ' ':` (main.cpp:323-332), with `dir` the
direction of the tentative rotation and `back` the one of its undoing:
`player.rotate(dir); if (collideAll(player.shape)) player.rotate(back);`. -/
def keyRotate (oob : Int → Int → Nat) (dir back : Direction) (g : Game) : Option Game :=
  match rotatePlayer g dir with
  | some g1 => if collideAllWith oob g1 g1.player.shape then rotatePlayer g1 back else some g1
  | none => none

/-- The handler `case 'r': case 'R':`, `rotate(CCW)` undone by `rotate(CW)`. -/
def keyR (oob : Int → Int → Nat) (g : Game) : Option Game := keyRotate oob .CCW .CW g

/-- The handler `case ' ':`, `rotate(CW)` undone by `rotate(CCW)`. -/
def keySpace (oob : Int → Int → Nat) (g : Game) : Option Game := keyRotate oob .CW .CCW g

/-- A playfield with three rows on the floor: row 17 holds one cell, row 18 is full but for
its columns 5 and 6, row 19 is full; the `O` pattern is at `(4, 16)`, over the gap. -/
def stackGame : Game :=
  { gameAt 4 16 shapeO with
    grid := List.replicate 17 zeroes ++
      [[51, 48, 48, 48, 48, 48, 48, 48, 48, 48],
       [50, 50, 50, 50, 50, 48, 48, 50, 50, 50],
       [49, 49, 49, 49, 49, 49, 49, 49, 49, 49]] }

/-- The transpose of a 4×4 matrix, in the words of the specification (cell `[r][c]` swapped
with cell `[c][r]`): the matrix whose cell `[r][c]` is the cell `[c][r]` of `m`. -/
def specTranspose (m : Shape) : Shape :=
  (List.range 4).map (fun r => (List.range 4).map (fun c => (cellAt m c r).getD 48))

/-- The reference definition of the clockwise rotation, in the words of the specification:
transpose the 4×4 matrix, then reverse each row. -/
def specRotateCW (shape : Shape) : Shape :=
  (specTranspose shape).map List.reverse

/-- The reference definition of the counter-clockwise rotation, in the words of the
specification: reverse each row, then transpose. -/
def specRotateCCW (shape : Shape) : Shape :=
  specTranspose (shape.map List.reverse)

/-- The `I` pattern of the catalog. -/
def shapeI : Shape := [str4 0 0 0 0, str4 1 1 1 1, str4 0 0 0 0, str4 0 0 0 0]

/-- The indices `(r, c)` at which the scan of `collideShape` evaluates `grid[r][c]`, in the
order of the evaluations, up to the point where the scan returns (main.cpp:151); the scan
of the model stops at an index that is out of range. -/
def collideShapeReads (g : Game) : List (Nat × Nat × Nat) → List (Int × Int)
  | [] => []
  | (row, col, ch) :: rest =>
    let c := (col : Int) + g.player.x
    let r := (row : Int) + g.player.y
    if ch > 48 then
      if r > 19 then []
      else if r > 0 then
        (r, c) ::
          (match gridAt g.grid r c with
          | some v => if v > 48 then [] else collideShapeReads g rest
          | none => [])
      else collideShapeReads g rest
    else collideShapeReads g rest

/-- A state in which `placeShape` signals game-over, after a game in which 5 lines were
cleared in 1000 ms and 8 pieces spawned; the next kind is `O`. -/
def lostGame : Game :=
  { gameAt 4 (-2) shapeO with
    lineCount := 5, runTime := 1000, aggr := [2, 1, 0, 3, 0, 1, 1], nextShape := 3 }

/-- The `O` pattern at `(4, -1)` over a playfield whose only non-empty cell is `grid[0][5]`,
holding `'1'`. -/
def coveredGame : Game :=
  { gameAt 4 (-1) shapeO with
    grid := [48, 48, 48, 48, 48, 49, 48, 48, 48, 48] :: List.replicate 19 zeroes }

theorem swap_eq (i j : Nat) : swap i j = (j, i) := by
  have h1 : j ^^^ (i ^^^ j) = i := by
    rw [Nat.xor_comm i j, ← Nat.xor_assoc, Nat.xor_self, Nat.zero_xor]
  have h2 : i ^^^ j ^^^ i = j := by
    rw [Nat.xor_comm i j, Nat.xor_assoc, Nat.xor_self, Nat.xor_zero]
  simp only [swap, h1, h2]

theorem rotateShape_CW_4x4 (a0 a1 a2 a3 b0 b1 b2 b3 c0 c1 c2 c3 d0 d1 d2 d3 : Nat) :
    rotateShape [[a0, a1, a2, a3], [b0, b1, b2, b3], [c0, c1, c2, c3], [d0, d1, d2, d3]] .CW
      = some [[d0, c0, b0, a0], [d1, c1, b1, a1], [d2, c2, b2, a2], [d3, c3, b3, a3]] := by
  simp [rotateShape, rotateCWRow, swapRow, reverseRow, swapStep, cellAt, setCell, swap_eq,
    List.range', List.range, List.range.loop]

theorem rotateShape_CCW_4x4 (a0 a1 a2 a3 b0 b1 b2 b3 c0 c1 c2 c3 d0 d1 d2 d3 : Nat) :
    rotateShape [[a0, a1, a2, a3], [b0, b1, b2, b3], [c0, c1, c2, c3], [d0, d1, d2, d3]] .CCW
      = some [[a3, b3, c3, d3], [a2, b2, c2, d2], [a1, b1, c1, d1], [a0, b0, c0, d0]] := by
  simp [rotateShape, swapRow, reverseRow, swapStep, cellAt, setCell, swap_eq,
    List.range', List.range, List.range.loop]

theorem length_four {α : Type} (l : List α) (h : l.length = 4) :
    ∃ a b c d, l = [a, b, c, d] := by
  match l, h with
  | [a, b, c, d], _ => exact ⟨a, b, c, d, rfl⟩

theorem Is4x4.cases {shape : Shape} (h : Is4x4 shape) :
    ∃ a0 a1 a2 a3 b0 b1 b2 b3 c0 c1 c2 c3 d0 d1 d2 d3 : Nat,
      shape = [[a0, a1, a2, a3], [b0, b1, b2, b3], [c0, c1, c2, c3], [d0, d1, d2, d3]] := by
  obtain ⟨hl, hr⟩ := h
  obtain ⟨ra, rb, rc, rd, rfl⟩ := length_four shape hl
  obtain ⟨a0, a1, a2, a3, rfl⟩ := length_four ra (hr _ (by simp))
  obtain ⟨b0, b1, b2, b3, rfl⟩ := length_four rb (hr _ (by simp))
  obtain ⟨c0, c1, c2, c3, rfl⟩ := length_four rc (hr _ (by simp))
  obtain ⟨d0, d1, d2, d3, rfl⟩ := length_four rd (hr _ (by simp))
  exact ⟨a0, a1, a2, a3, b0, b1, b2, b3, c0, c1, c2, c3, d0, d1, d2, d3, rfl⟩

theorem Player.rotate_CW_4x4 (x y : Int)
    (a0 a1 a2 a3 b0 b1 b2 b3 c0 c1 c2 c3 d0 d1 d2 d3 : Nat) :
    Player.rotate
        ⟨x, y, [[a0, a1, a2, a3], [b0, b1, b2, b3], [c0, c1, c2, c3], [d0, d1, d2, d3]]⟩ .CW
      = some ⟨x, y, [[d0, c0, b0, a0], [d1, c1, b1, a1], [d2, c2, b2, a2], [d3, c3, b3, a3]]⟩ := by
  simp only [Player.rotate, rotateShape_CW_4x4]

theorem Player.rotate_CCW_4x4 (x y : Int)
    (a0 a1 a2 a3 b0 b1 b2 b3 c0 c1 c2 c3 d0 d1 d2 d3 : Nat) :
    Player.rotate
        ⟨x, y, [[a0, a1, a2, a3], [b0, b1, b2, b3], [c0, c1, c2, c3], [d0, d1, d2, d3]]⟩ .CCW
      = some ⟨x, y, [[a3, b3, c3, d3], [a2, b2, c2, d2], [a1, b1, c1, d1], [a0, b0, c0, d0]]⟩ := by
  simp only [Player.rotate, rotateShape_CCW_4x4]

/-- C1: for every player whose pattern is 4 rows of 4 cell codes, four calls of
`Player::rotate(CW)` in a row are all defined and give back exactly the original player
(pattern and position), and so do four calls of `Player::rotate(CCW)`. -/
theorem rotate_four_times_id (p : Player) (h : Is4x4 p.shape) :
    ((((p.rotate .CW).bind (Player.rotate · .CW)).bind (Player.rotate · .CW)).bind
        (Player.rotate · .CW) = some p) ∧
    ((((p.rotate .CCW).bind (Player.rotate · .CCW)).bind (Player.rotate · .CCW)).bind
        (Player.rotate · .CCW) = some p) := by
  obtain ⟨x, y, shape⟩ := p
  obtain ⟨a0, a1, a2, a3, b0, b1, b2, b3, c0, c1, c2, c3, d0, d1, d2, d3, hs⟩ := Is4x4.cases h
  simp only [] at hs
  subst hs
  constructor
  · iterate 3 rw [Player.rotate_CW_4x4, Option.some_bind]
    rw [Player.rotate_CW_4x4]
  · iterate 3 rw [Player.rotate_CCW_4x4, Option.some_bind]
    rw [Player.rotate_CCW_4x4]

theorem rotate_four_times_id_witness :
    Is4x4 [str4 0 0 0 0, str4 2 2 2 0, str4 0 0 2 0, str4 0 0 0 0] ∧
    ((((Player.rotate ⟨4, -3, [str4 0 0 0 0, str4 2 2 2 0, str4 0 0 2 0, str4 0 0 0 0]⟩ .CW).bind
        (Player.rotate · .CW)).bind (Player.rotate · .CW)).bind (Player.rotate · .CW)
      = some ⟨4, -3, [str4 0 0 0 0, str4 2 2 2 0, str4 0 0 2 0, str4 0 0 0 0]⟩) :=
  ⟨by simp [Is4x4, str4],
   (rotate_four_times_id ⟨4, -3, [str4 0 0 0 0, str4 2 2 2 0, str4 0 0 2 0, str4 0 0 0 0]⟩
      (by simp [Is4x4, str4])).1⟩

/-- C2: `Player::rotate(CW)` and `Player::rotate(CCW)` are mutual inverses on every player
whose pattern is 4 rows of 4 cell codes: `CW` then `CCW` gives back the original player, and
`CCW` then `CW` gives back the original player. -/
theorem rotate_CW_CCW_inverse (p : Player) (h : Is4x4 p.shape) :
    ((p.rotate .CW).bind (Player.rotate · .CCW) = some p) ∧
    ((p.rotate .CCW).bind (Player.rotate · .CW) = some p) := by
  obtain ⟨x, y, shape⟩ := p
  obtain ⟨a0, a1, a2, a3, b0, b1, b2, b3, c0, c1, c2, c3, d0, d1, d2, d3, hs⟩ := Is4x4.cases h
  simp only [] at hs
  subst hs
  constructor
  · rw [Player.rotate_CW_4x4, Option.some_bind, Player.rotate_CCW_4x4]
  · rw [Player.rotate_CCW_4x4, Option.some_bind, Player.rotate_CW_4x4]

theorem rotate_CW_CCW_inverse_witness :
    Is4x4 [str4 0 0 0 0, str4 0 5 5 0, str4 5 5 0 0, str4 0 0 0 0] ∧
    ((Player.rotate ⟨0, 7, [str4 0 0 0 0, str4 0 5 5 0, str4 5 5 0 0, str4 0 0 0 0]⟩ .CW).bind
        (Player.rotate · .CCW)
      = some ⟨0, 7, [str4 0 0 0 0, str4 0 5 5 0, str4 5 5 0 0, str4 0 0 0 0]⟩) :=
  ⟨by simp [Is4x4, str4],
   (rotate_CW_CCW_inverse ⟨0, 7, [str4 0 0 0 0, str4 0 5 5 0, str4 5 5 0 0, str4 0 0 0 0]⟩
      (by simp [Is4x4, str4])).1⟩


theorem cleared_eq_map_filter (l : List (Nat × List Nat)) :
    l.filterMap (fun rl => if isFull rl.2 then some (rl.1 % 65536) else none)
      = (l.filter (fun rl => isFull rl.2)).map (fun rl => rl.1 % 65536) := by
  induction l with
  | nil => rfl
  | cons a rest ih =>
    by_cases hf : isFull a.2 = true
    · simp [List.filterMap_cons, List.filter_cons, hf, ih]
    · simp [List.filterMap_cons, List.filter_cons, hf, ih]

theorem cleared_eq (grid : Grid) (h : grid.length ≤ 65536) :
    cleared grid = (grid.enum.filter (fun rl => isFull rl.2)).map Prod.fst := by
  rw [cleared, cleared_eq_map_filter]
  apply List.map_congr_left
  intro rl hrl
  have hm := List.mem_of_mem_filter hrl
  obtain ⟨i, ln⟩ := rl
  have := (List.mem_enum hm).1
  exact Nat.mod_eq_of_lt (by omega)

theorem cleared_length (grid : Grid) : (cleared grid).length = grid.countP isFull := by
  rw [cleared, cleared_eq_map_filter, List.length_map, List.enum]
  generalize 0 = n
  induction grid generalizing n with
  | nil => simp
  | cons ln rest ih =>
    by_cases hf : isFull ln = true
    · simp [List.enumFrom_cons, List.filter_cons, hf, ih]
    · simp [List.enumFrom_cons, List.filter_cons, hf, ih]

theorem cleared_sorted (grid : Grid) (h : grid.length ≤ 65536) :
    (cleared grid).Pairwise (· < ·) := by
  rw [cleared_eq grid h]
  have hs : List.Sublist ((grid.enum.filter (fun rl => isFull rl.2)).map Prod.fst)
      (grid.enum.map Prod.fst) := List.Sublist.map _ (List.filter_sublist _)
  rw [List.enum_map_fst] at hs
  exact List.Pairwise.sublist hs (List.pairwise_lt_range _)

theorem mem_cleared (grid : Grid) (h : grid.length ≤ 65536) (row : Nat) :
    row ∈ cleared grid ↔ ∃ ln, grid[row]? = some ln ∧ ∀ c ∈ ln, c > 48 := by
  rw [cleared_eq grid h]
  simp only [List.mem_map, List.mem_filter, Prod.exists, exists_and_right, exists_eq_right,
    List.mk_mem_enum_iff_getElem?, isFull, List.all_eq_true, decide_eq_true_eq]


theorem filter_eraseIdx_firstFull (grid : Grid) (row : Nat) (h : firstFull grid = some row) :
    (grid.eraseIdx row).filter (fun ln => !isFull ln) = grid.filter (fun ln => !isFull ln) := by
  induction grid generalizing row with
  | nil => simp [firstFull] at h
  | cons ln rest ih =>
    simp only [firstFull] at h
    by_cases hf : isFull ln = true
    · simp only [hf, if_true, Option.some.injEq] at h
      subst h
      simp [List.filter_cons, hf]
    · simp only [hf] at h
      cases hr : firstFull rest with
      | none => simp [hr] at h
      | some j =>
        simp only [hr, Option.map_some', Bool.false_eq_true, if_false, Option.some.injEq] at h
        subst h
        simp [List.eraseIdx_cons_succ, List.filter_cons, hf, ih j hr]

theorem filter_of_firstFull_none (grid : Grid) (h : firstFull grid = none) :
    grid.filter (fun ln => !isFull ln) = grid := by
  induction grid with
  | nil => rfl
  | cons ln rest ih =>
    simp only [firstFull] at h
    by_cases hf : isFull ln = true
    · simp [hf] at h
    · simp only [hf, Bool.false_eq_true, if_false, Option.map_eq_none'] at h
      simp [List.filter_cons, hf, ih h]

theorem eraseFullRows_eq (grid : Grid) :
    eraseFullRows grid = grid.filter (fun ln => !isFull ln) := by
  induction grid using eraseFullRows.induct with
  | case1 grid row h ih =>
    rw [eraseFullRows]
    split
    · rename_i row1 h1
      have e : row1 = row := by
        rw [h] at h1
        exact (Option.some.inj h1).symm
      subst e
      rw [ih, filter_eraseIdx_firstFull grid row1 h]
    · rename_i h1
      rw [h] at h1
      cases h1
  | case2 grid h =>
    rw [eraseFullRows]
    split
    · rename_i row1 h1
      rw [h] at h1
      cases h1
    · rw [filter_of_firstFull_none grid h]

theorem insertEmpties_eq (k : Nat) (grid : Grid) :
    insertEmpties k grid = List.replicate k zeroes ++ grid := by
  induction k with
  | zero => simp [insertEmpties]
  | succ k ih =>
    simp only [insertEmpties] at ih
    simp [insertEmpties, List.range_succ, List.foldl_append, ih, List.replicate_succ]


theorem clearLines_fst (g : Game) (h : g.grid.length ≤ 65535) :
    (clearLines g).1 = g.grid.countP isFull := by
  have hl : (cleared g.grid).length = g.grid.countP isFull := cleared_length g.grid
  have hle : g.grid.countP isFull ≤ g.grid.length := List.countP_le_length _
  have hm : (cleared g.grid).length % 65536 = g.grid.countP isFull := by
    rw [hl]
    exact Nat.mod_eq_of_lt (by omega)
  unfold clearLines
  simp only [hm]
  split <;> rfl

theorem clearLines_snd (g : Game) (h : g.grid.length ≤ 65535) :
    (clearLines g).2 =
      { g with
        grid := List.replicate (g.grid.countP isFull) zeroes ++
                  g.grid.filter (fun ln => !isFull ln) } := by
  have hl : (cleared g.grid).length = g.grid.countP isFull := cleared_length g.grid
  have hle : g.grid.countP isFull ≤ g.grid.length := List.countP_le_length _
  have hm : (cleared g.grid).length % 65536 = g.grid.countP isFull := by
    rw [hl]
    exact Nat.mod_eq_of_lt (by omega)
  unfold clearLines
  simp only [hm]
  split
  · simp only [insertEmpties_eq, eraseFullRows_eq]
  · rename_i h0
    simp only [ne_eq, not_not] at h0
    have hnone : ∀ ln ∈ g.grid, ¬ isFull ln = true := List.countP_eq_zero.mp h0
    have hf : g.grid.filter (fun ln => !isFull ln) = g.grid := by
      apply List.filter_eq_self.mpr
      intro ln hln
      simpa using hnone ln hln
    simp only [h0, hf, List.replicate_zero, List.nil_append]

theorem clearLines_gridOK (g : Game) (h : GridOK g.grid) : GridOK (clearLines g).2.grid := by
  have h20 : g.grid.length = 20 := h.1
  rw [clearLines_snd g (by omega)]
  refine ⟨?_, ?_⟩
  · have := List.length_eq_countP_add_countP isFull g.grid
    simp only [List.length_append, List.length_replicate, ← List.countP_eq_length_filter]
    have e : List.countP (fun ln => !isFull ln) g.grid
        = List.countP (fun a => decide ¬isFull a = true) g.grid := by
      congr 1
      funext a
      cases isFull a <;> rfl
    omega
  · intro ln hln
    simp only [List.mem_append, List.mem_replicate, List.mem_filter] at hln
    rcases hln with ⟨_, rfl⟩ | ⟨hm, _⟩
    · rfl
    · exact h.2 ln hm

/-- C3: on every grid of 20 rows of 10 cells, `clearLines` returns the number `k` of rows all
of whose cells are non-empty, which is the length of its list `cleared`; `cleared` holds
exactly the indices of those rows, in ascending order; afterwards the grid is `k` rows of
ten `'0'` followed by the original rows that are not full, in their original order, nothing
else of the state is changed, and the grid is again 20 rows of 10 cells none of which is
full. -/
theorem clearLines_spec (g : Game) (h : GridOK g.grid) :
    (clearLines g).1 = g.grid.countP (fun ln => ln.all (fun c => decide (c > 48))) ∧
    (clearLines g).1 = (cleared g.grid).length ∧
    (cleared g.grid).Pairwise (· < ·) ∧
    (∀ row, row ∈ cleared g.grid ↔ ∃ ln, g.grid[row]? = some ln ∧ ∀ c ∈ ln, c > 48) ∧
    (clearLines g).2 =
      { g with
        grid := List.replicate (clearLines g).1 (List.replicate 10 48) ++
                  g.grid.filter (fun ln => !ln.all (fun c => decide (c > 48))) } ∧
    GridOK (clearLines g).2.grid ∧
    (∀ ln ∈ (clearLines g).2.grid, ¬ ∀ c ∈ ln, c > 48) := by
  have h20 : g.grid.length = 20 := h.1
  have hlen : g.grid.length ≤ 65535 := by omega
  have h1 := clearLines_fst g hlen
  have h2 := clearLines_snd g hlen
  have hfull : (fun ln : List Nat => ln.all (fun c => decide (c > 48))) = isFull := rfl
  have hz : List.replicate 10 48 = zeroes := rfl
  have hG := clearLines_gridOK g h
  rw [h2] at hG
  rw [hfull, hz, h1, h2]
  refine ⟨rfl, (cleared_length g.grid).symm, cleared_sorted g.grid (by omega),
    mem_cleared g.grid (by omega), rfl, hG, ?_⟩
  intro ln hln hall
  simp only [List.mem_append, List.mem_replicate, List.mem_filter] at hln
  rcases hln with ⟨_, rfl⟩ | ⟨_, hnf⟩
  · have := hall 48 (by simp [zeroes])
    omega
  · have : isFull ln = true := by
      simpa [isFull] using hall
    simp [this] at hnf

theorem mem_cells (shape : Shape) (row col ch : Nat) :
    (row, col, ch) ∈ cells shape ↔ cellAt shape row col = some ch := by
  simp only [cells, List.mem_flatMap, List.mem_map, Prod.exists, Prod.mk.injEq, cellAt,
    List.mk_mem_enum_iff_getElem?]
  constructor
  · rintro ⟨i, ln, hln, j, c, hc, rfl, rfl, rfl⟩
    simp [hln, hc]
  · intro h
    cases hr : shape[row]? with
    | none => simp [hr] at h
    | some ln =>
      simp only [hr] at h
      exact ⟨row, ln, hr, col, ch, h, rfl, rfl, rfl⟩

theorem setCell_spec (grid : Grid) (hg : GridOK grid) (n m v : Nat) (hn : n < 20) (hm : m < 10) :
    ∃ grid1, setCell grid n m v = some grid1 ∧ GridOK grid1 ∧
      (∀ N M, cellAt grid1 N M = if N = n ∧ M = m then some v else cellAt grid N M) ∧
      (∀ ln1 ∈ grid1, ∀ c ∈ ln1, c = v ∨ ∃ ln ∈ grid, c ∈ ln) := by
  obtain ⟨hlen, hrows⟩ := hg
  have hn1 : n < grid.length := by omega
  have hget : grid[n]? = some grid[n] := List.getElem?_eq_getElem hn1
  have hl : grid[n].length = 10 := hrows _ (List.getElem_mem hn1)
  refine ⟨grid.set n (grid[n].set m v), ?_, ⟨?_, ?_⟩, ?_, ?_⟩
  · simp [setCell, hget, hl, hm]
  · simpa using hlen
  · intro ln hln
    rcases List.mem_or_eq_of_mem_set hln with h | h
    · exact hrows ln h
    · simp [h, hl]
  · intro N M
    by_cases hN : N = n
    · subst hN
      by_cases hM : M = m
      · subst hM
        simp [cellAt, hn1, hl, hm]
      · have : ¬ m = M := fun e => hM e.symm
        simp [cellAt, hn1, hM, List.getElem?_set, this]
    · have : ¬ n = N := fun e => hN e.symm
      simp [cellAt, hN, List.getElem?_set, this]
  · intro ln1 hln1 c hc
    rcases List.mem_or_eq_of_mem_set hln1 with h | h
    · exact Or.inr ⟨ln1, h, hc⟩
    · subst h
      rcases List.mem_or_eq_of_mem_set hc with h2 | h2
      · exact Or.inr ⟨grid[n], List.getElem_mem hn1, h2⟩
      · exact Or.inl h2

theorem gridSet_spec (grid : Grid) (hg : GridOK grid) (r c : Int) (v : Nat)
    (hr : 0 ≤ r ∧ r ≤ 19) (hc : 0 ≤ c ∧ c ≤ 9) :
    ∃ grid1, gridSet grid r c v = some grid1 ∧ GridOK grid1 ∧
      (∀ R C, gridAt grid1 R C = if R = r ∧ C = c then some v else gridAt grid R C) ∧
      (∀ ln1 ∈ grid1, ∀ c ∈ ln1, c = v ∨ ∃ ln ∈ grid, c ∈ ln) := by
  obtain ⟨grid1, h1, h2, h3, h4⟩ :=
    setCell_spec grid hg r.toNat c.toNat v (by omega) (by omega)
  refine ⟨grid1, ?_, h2, ?_, h4⟩
  · simp [gridSet, hr.1, hc.1, h1]
  · intro R C
    simp only [gridAt]
    by_cases hRC : 0 ≤ R ∧ 0 ≤ C
    · simp only [hRC, and_self, if_true, h3]
      have e : (R.toNat = r.toNat ∧ C.toNat = c.toNat) ↔ (R = r ∧ C = c) := by omega
      simp only [e]
    · have : ¬ (R = r ∧ C = c) := by omega
      simp only [hRC, this, if_false]


theorem placeScan_spec (cs : List (Nat × Nat × Nat)) :
    ∀ g : Game, GridOK g.grid →
    (∀ row col ch, (row, col, ch) ∈ cs → ch > 48 →
      0 ≤ (col : Int) + g.player.x ∧ (col : Int) + g.player.x ≤ 9 ∧
        (row : Int) + g.player.y ≤ 19) →
    ∃ p, placeScan g cs = some p ∧
      (p.over = true ↔
        ∃ row col ch, (row, col, ch) ∈ cs ∧ ch > 48 ∧ (row : Int) + g.player.y < 0) ∧
      GridOK p.game.grid ∧
      p.game = { g with grid := p.game.grid } ∧
      (∀ ln1 ∈ p.game.grid, ∀ c ∈ ln1,
        (∃ ln ∈ g.grid, c ∈ ln) ∨ ∃ row col, (row, col, c) ∈ cs ∧ c > 48) ∧
      (p.over = false → ∀ R C, gridAt p.game.grid R C =
        match written g.player.x g.player.y cs R C with
        | some v => some v
        | none => gridAt g.grid R C) := by
  induction cs with
  | nil =>
    intro g hg _
    exact ⟨.locked g, rfl, by simp [Placed.over], hg, rfl,
      fun ln1 h1 c hc => Or.inl ⟨ln1, h1, hc⟩, fun _ R C => by simp [Placed.game, written]⟩
  | cons cell rest ih =>
    obtain ⟨row, col, ch⟩ := cell
    intro g hg hb
    have hb1 : ∀ row col ch, (row, col, ch) ∈ rest → ch > 48 →
        0 ≤ (col : Int) + g.player.x ∧ (col : Int) + g.player.x ≤ 9 ∧
          (row : Int) + g.player.y ≤ 19 :=
      fun r1 c1 ch1 hm => hb r1 c1 ch1 (List.mem_cons_of_mem _ hm)
    by_cases hch : ch > 48
    · have hb0 := hb row col ch (List.mem_cons_self _ _) hch
      by_cases hr : (row : Int) + g.player.y < 0
      · refine ⟨.gameOver g, by simp [placeScan, hch, hr], ?_, hg, rfl,
          fun ln1 h1 c hc => Or.inl ⟨ln1, h1, hc⟩, fun h => by simp [Placed.over] at h⟩
        simp only [Placed.over, true_iff]
        exact ⟨row, col, ch, List.mem_cons_self _ _, hch, hr⟩
      · obtain ⟨grid1, hs, hg1, hat, hcodes⟩ := gridSet_spec g.grid hg
          ((row : Int) + g.player.y) ((col : Int) + g.player.x) ch
          ⟨by omega, hb0.2.2⟩ ⟨hb0.1, hb0.2.1⟩
        obtain ⟨p, hp, hover, hgp, hgame, hcp, hw⟩ := ih { g with grid := grid1 } hg1 hb1
        refine ⟨p, by simp [placeScan, hch, hr, hs, hp], ?_, hgp, ?_, ?_, ?_⟩
        · rw [hover]
          constructor
          · rintro ⟨r1, c1, ch1, hm, h1, h2⟩
            exact ⟨r1, c1, ch1, List.mem_cons_of_mem _ hm, h1, h2⟩
          · rintro ⟨r1, c1, ch1, hm, h1, h2⟩
            rcases List.mem_cons.mp hm with he | hm1
            · simp only [Prod.mk.injEq] at he
              obtain ⟨rfl, rfl, rfl⟩ := he
              exact absurd h2 hr
            · exact ⟨r1, c1, ch1, hm1, h1, h2⟩
        · rw [hgame]
        · intro ln1 h1 c hc
          rcases hcp ln1 h1 c hc with ⟨ln, hln, hcl⟩ | ⟨r1, c1, hm, h2⟩
          · rcases hcodes ln hln c hcl with he | hex
            · subst he
              exact Or.inr ⟨row, col, List.mem_cons_self _ _, hch⟩
            · exact Or.inl hex
          · exact Or.inr ⟨r1, c1, List.mem_cons_of_mem _ hm, h2⟩
        · intro hov R C
          rw [hw hov R C]
          simp only [written]
          cases hwr : written g.player.x g.player.y rest R C with
          | some v => rfl
          | none =>
            by_cases hRC : (row : Int) + g.player.y = R ∧ (col : Int) + g.player.x = C
            · obtain ⟨rfl, rfl⟩ := hRC
              simp only [hat, hch, and_self, if_true]
            · have hRC1 : ¬ (R = (row : Int) + g.player.y ∧ C = (col : Int) + g.player.x) :=
                fun h => hRC ⟨h.1.symm, h.2.symm⟩
              simp only [hat, hch, hRC, hRC1, true_and, if_false]
    · obtain ⟨p, hp, hover, hgp, hgame, hcp, hw⟩ := ih g hg hb1
      refine ⟨p, by simp [placeScan, hch, hp], ?_, hgp, hgame, ?_, ?_⟩
      · rw [hover]
        constructor
        · rintro ⟨r1, c1, ch1, hm, h1, h2⟩
          exact ⟨r1, c1, ch1, List.mem_cons_of_mem _ hm, h1, h2⟩
        · rintro ⟨r1, c1, ch1, hm, h1, h2⟩
          rcases List.mem_cons.mp hm with he | hm1
          · simp only [Prod.mk.injEq] at he
            obtain ⟨rfl, rfl, rfl⟩ := he
            exact absurd h1 hch
          · exact ⟨r1, c1, ch1, hm1, h1, h2⟩
      · intro ln1 h1 c hc
        rcases hcp ln1 h1 c hc with hex | ⟨r1, c1, hm, h2⟩
        · exact Or.inl hex
        · exact Or.inr ⟨r1, c1, List.mem_cons_of_mem _ hm, h2⟩
      · intro hov R C
        rw [hw hov R C]
        simp only [written, hch, false_and, if_false]
        cases written g.player.x g.player.y rest R C <;> rfl


theorem written_none_iff (x y : Int) (cs : List (Nat × Nat × Nat)) (R C : Int) :
    written x y cs R C = none ↔
      ¬ ∃ row col ch, (row, col, ch) ∈ cs ∧ ch > 48 ∧ (row : Int) + y = R ∧ (col : Int) + x = C := by
  induction cs with
  | nil => simp [written]
  | cons cell rest ih =>
    obtain ⟨row, col, ch⟩ := cell
    simp only [written]
    cases hw : written x y rest R C with
    | some v =>
      rw [hw] at ih
      simp only [reduceCtorEq, false_iff, not_not] at ih
      obtain ⟨r1, c1, ch1, hm, h⟩ := ih
      simp only [reduceCtorEq, false_iff, not_not]
      exact ⟨r1, c1, ch1, List.mem_cons_of_mem _ hm, h⟩
    | none =>
      rw [hw] at ih
      simp only [true_iff] at ih
      by_cases hc : ch > 48 ∧ (row : Int) + y = R ∧ (col : Int) + x = C
      · simp only [hc, and_self, if_true, reduceCtorEq, false_iff, not_not]
        exact ⟨row, col, ch, List.mem_cons_self _ _, hc⟩
      · simp only [hc, if_false, true_iff]
        rintro ⟨r1, c1, ch1, hm, h⟩
        rcases List.mem_cons.mp hm with he | hm1
        · simp only [Prod.mk.injEq] at he
          obtain ⟨rfl, rfl, rfl⟩ := he
          exact hc h
        · exact ih ⟨r1, c1, ch1, hm1, h⟩

theorem written_some (x y : Int) (cs : List (Nat × Nat × Nat)) (R C : Int) (v : Nat)
    (h : written x y cs R C = some v) :
    ∃ row col, (row, col, v) ∈ cs ∧ v > 48 ∧ (row : Int) + y = R ∧ (col : Int) + x = C := by
  induction cs with
  | nil => simp [written] at h
  | cons cell rest ih =>
    obtain ⟨row, col, ch⟩ := cell
    simp only [written] at h
    cases hw : written x y rest R C with
    | some v1 =>
      simp only [hw, Option.some.injEq] at h
      subst h
      obtain ⟨r1, c1, hm, h1⟩ := ih hw
      exact ⟨r1, c1, List.mem_cons_of_mem _ hm, h1⟩
    | none =>
      simp only [hw] at h
      split at h
      · rename_i hc
        simp only [Option.some.injEq] at h
        subst h
        exact ⟨row, col, List.mem_cons_self _ _, hc⟩
      · cases h

theorem written_cells (x y : Int) (shape : Shape) (row col ch : Nat)
    (hc : cellAt shape row col = some ch) (hch : ch > 48) :
    written x y (cells shape) ((row : Int) + y) ((col : Int) + x) = some ch := by
  cases hw : written x y (cells shape) ((row : Int) + y) ((col : Int) + x) with
  | none =>
    exact absurd ⟨row, col, ch, (mem_cells shape row col ch).mpr hc, hch, rfl, rfl⟩
      ((written_none_iff x y _ _ _).mp hw)
  | some v =>
    obtain ⟨r1, c1, hm, _, h1, h2⟩ := written_some x y _ _ _ v hw
    have e1 : r1 = row := by omega
    have e2 : c1 = col := by omega
    subst e1 e2
    have := (mem_cells shape r1 c1 v).mp hm
    rw [hc] at this
    exact this.symm ▸ rfl

theorem cellAt_mem (m : List (List Nat)) (row col ch : Nat) (h : cellAt m row col = some ch) :
    ∃ ln ∈ m, ch ∈ ln := by
  simp only [cellAt] at h
  cases hr : m[row]? with
  | none => simp [hr] at h
  | some ln =>
    simp only [hr] at h
    exact ⟨ln, List.mem_iff_getElem?.mpr ⟨row, hr⟩, List.mem_iff_getElem?.mpr ⟨col, h⟩⟩


theorem forall_occupied (shape : Shape) (P : Nat → Nat → Nat → Prop)
    (h : ∀ cell ∈ cells shape, cell.2.2 > 48 → P cell.1 cell.2.1 cell.2.2) :
    ∀ row col ch, Occupied shape row col ch → P row col ch :=
  fun row col ch ho => h (row, col, ch) ((mem_cells shape row col ch).mpr ho.1) ho.2

theorem gridOK_gameAt (x y : Int) (shape : Shape) : GridOK (gameAt x y shape).grid := by
  refine ⟨rfl, ?_⟩
  intro ln hln
  have : ln = zeroes := by
    simp only [gameAt, newGame, initGrid] at hln
    exact List.eq_of_mem_replicate (n := 20) hln
  subst this
  rfl

/-- C4: on a playfield of 20 rows of 10 cells, for every pattern and position whose occupied
cells map to columns in [0,9] and rows at most 19, `placeShape` is defined and ends at the
call of `onGameOver` if and only if some occupied cell of the pattern maps to a world row
below 0; in particular it does not when every occupied cell maps to a row in [0,19]. -/
theorem placeShape_gameOver_iff (g : Game) (shape : Shape) (hg : GridOK g.grid)
    (hb : ∀ row col ch, Occupied shape row col ch →
      0 ≤ (col : Int) + g.player.x ∧ (col : Int) + g.player.x ≤ 9 ∧
        (row : Int) + g.player.y ≤ 19) :
    ∃ p, placeShape g shape = some p ∧
      (p.over = true ↔ ∃ row col ch, Occupied shape row col ch ∧ (row : Int) + g.player.y < 0) ∧
      ((∀ row col ch, Occupied shape row col ch →
          0 ≤ (row : Int) + g.player.y ∧ (row : Int) + g.player.y ≤ 19) → p.over = false) := by
  obtain ⟨p, hp, hover, _⟩ := placeScan_spec (cells shape) g hg
    (fun row col ch hm hch => hb row col ch ⟨(mem_cells shape row col ch).mp hm, hch⟩)
  have hiff : p.over = true ↔
      ∃ row col ch, Occupied shape row col ch ∧ (row : Int) + g.player.y < 0 := by
    rw [hover]
    constructor
    · rintro ⟨row, col, ch, hm, hch, hr⟩
      exact ⟨row, col, ch, ⟨(mem_cells shape row col ch).mp hm, hch⟩, hr⟩
    · rintro ⟨row, col, ch, ho, hr⟩
      exact ⟨row, col, ch, (mem_cells shape row col ch).mpr ho.1, ho.2, hr⟩
  refine ⟨p, hp, hiff, ?_⟩
  intro hall
  cases hov : p.over with
  | false => rfl
  | true =>
    obtain ⟨row, col, ch, ho, hr⟩ := hiff.mp hov
    have := (hall row col ch ho).1
    omega

theorem placeShape_gameOver_iff_witness :
    GridOK (gameAt 4 (-2) shapeO).grid ∧
    (∀ row col ch, Occupied shapeO row col ch →
      0 ≤ (col : Int) + (gameAt 4 (-2) shapeO).player.x ∧
        (col : Int) + (gameAt 4 (-2) shapeO).player.x ≤ 9 ∧
        (row : Int) + (gameAt 4 (-2) shapeO).player.y ≤ 19) ∧
    ∃ p, placeShape (gameAt 4 (-2) shapeO) shapeO = some p ∧
      (p.over = true ↔
        ∃ row col ch, Occupied shapeO row col ch ∧
          (row : Int) + (gameAt 4 (-2) shapeO).player.y < 0) ∧
      ((∀ row col ch, Occupied shapeO row col ch →
          0 ≤ (row : Int) + (gameAt 4 (-2) shapeO).player.y ∧
            (row : Int) + (gameAt 4 (-2) shapeO).player.y ≤ 19) → p.over = false) :=
  ⟨gridOK_gameAt _ _ _, forall_occupied shapeO _ (by decide),
    placeShape_gameOver_iff (gameAt 4 (-2) shapeO) shapeO (gridOK_gameAt _ _ _)
      (forall_occupied shapeO _ (by decide))⟩


theorem placeShape_frame (g : Game) (shape : Shape) (hg : GridOK g.grid)
    (hb : ∀ row col ch, Occupied shape row col ch →
      0 ≤ (row : Int) + g.player.y ∧ (row : Int) + g.player.y ≤ 19 ∧
        0 ≤ (col : Int) + g.player.x ∧ (col : Int) + g.player.x ≤ 9) :
    ∃ grid1, placeShape g shape = some (.locked { g with grid := grid1 }) ∧ GridOK grid1 ∧
      (∀ row col ch, Occupied shape row col ch →
        gridAt grid1 ((row : Int) + g.player.y) ((col : Int) + g.player.x) = some ch) ∧
      (∀ R C : Int,
        (¬ ∃ row col ch, Occupied shape row col ch ∧
            (row : Int) + g.player.y = R ∧ (col : Int) + g.player.x = C) →
        gridAt grid1 R C = gridAt g.grid R C) := by
  obtain ⟨p, hp, hover, hgp, hgame, _, hw⟩ := placeScan_spec (cells shape) g hg
    (fun row col ch hm hch =>
      have h := hb row col ch ⟨(mem_cells shape row col ch).mp hm, hch⟩
      ⟨h.2.2.1, h.2.2.2, h.2.1⟩)
  have hov : p.over = false := by
    cases hov : p.over with
    | false => rfl
    | true =>
      obtain ⟨row, col, ch, hm, hch, hr⟩ := hover.mp hov
      have := (hb row col ch ⟨(mem_cells shape row col ch).mp hm, hch⟩).1
      omega
  have hpl : p = .locked { g with grid := p.game.grid } := by
    cases p with
    | gameOver g1 => simp [Placed.over] at hov
    | locked g1 =>
      simp only [Placed.game] at hgame ⊢
      rw [← hgame]
  refine ⟨p.game.grid, ?_, hgp, ?_, ?_⟩
  · rw [← hpl]
    exact hp
  · intro row col ch ho
    rw [hw hov, written_cells g.player.x g.player.y shape row col ch ho.1 ho.2]
  · intro R C hno
    have hnone : written g.player.x g.player.y (cells shape) R C = none := by
      rw [written_none_iff]
      rintro ⟨row, col, ch, hm, hch, h⟩
      exact hno ⟨row, col, ch, ⟨(mem_cells shape row col ch).mp hm, hch⟩, h⟩
    rw [hw hov, hnone]

/-- C5: on a playfield of 20 rows of 10 cells, for every pattern and position whose occupied
cells all map to rows [0,19] and columns [0,9], `placeShape` runs to its end (no game-over)
changing only the grid; afterwards the grid cell at `(row + player.y, col + player.x)` holds
the pattern's code for every occupied pattern cell `(row, col)`, and every grid cell to which
no occupied pattern cell maps is unchanged. -/
theorem placeShape_writes (g : Game) (shape : Shape) (hg : GridOK g.grid)
    (hb : ∀ row col ch, Occupied shape row col ch →
      0 ≤ (row : Int) + g.player.y ∧ (row : Int) + g.player.y ≤ 19 ∧
        0 ≤ (col : Int) + g.player.x ∧ (col : Int) + g.player.x ≤ 9) :
    ∃ grid1, placeShape g shape = some (.locked { g with grid := grid1 }) ∧ GridOK grid1 ∧
      (∀ row col ch, Occupied shape row col ch →
        gridAt grid1 ((row : Int) + g.player.y) ((col : Int) + g.player.x) = some ch) ∧
      (∀ R C : Int,
        (¬ ∃ row col ch, Occupied shape row col ch ∧
            (row : Int) + g.player.y = R ∧ (col : Int) + g.player.x = C) →
        gridAt grid1 R C = gridAt g.grid R C) :=
  placeShape_frame g shape hg hb

theorem placeShape_writes_witness :
    GridOK (gameAt 4 17 shapeO).grid ∧
    (∀ row col ch, Occupied shapeO row col ch →
      0 ≤ (row : Int) + (gameAt 4 17 shapeO).player.y ∧
        (row : Int) + (gameAt 4 17 shapeO).player.y ≤ 19 ∧
        0 ≤ (col : Int) + (gameAt 4 17 shapeO).player.x ∧
        (col : Int) + (gameAt 4 17 shapeO).player.x ≤ 9) ∧
    ∃ grid1, placeShape (gameAt 4 17 shapeO) shapeO
        = some (.locked { gameAt 4 17 shapeO with grid := grid1 }) ∧ GridOK grid1 ∧
      (∀ row col ch, Occupied shapeO row col ch →
        gridAt grid1 ((row : Int) + (gameAt 4 17 shapeO).player.y)
          ((col : Int) + (gameAt 4 17 shapeO).player.x) = some ch) ∧
      (∀ R C : Int,
        (¬ ∃ row col ch, Occupied shapeO row col ch ∧
            (row : Int) + (gameAt 4 17 shapeO).player.y = R ∧
            (col : Int) + (gameAt 4 17 shapeO).player.x = C) →
        gridAt grid1 R C = gridAt (gameAt 4 17 shapeO).grid R C) :=
  ⟨gridOK_gameAt _ _ _, forall_occupied shapeO _ (by decide),
    placeShape_writes (gameAt 4 17 shapeO) shapeO (gridOK_gameAt _ _ _)
      (forall_occupied shapeO _ (by decide))⟩

theorem initGrid_grid (g : Game) : (initGrid g).grid = List.replicate 20 zeroes := rfl

theorem codesOK_zeroes : ∀ c ∈ zeroes, 48 ≤ c ∧ c ≤ 55 := by
  intro c hc
  have : c = 48 := List.eq_of_mem_replicate (n := 10) hc
  omega

/-- C6: playfield well-formedness (20 rows, 10 cells in every row, every cell a code
`'0' .. '7'`) holds after `initGrid`; `placeShape` is defined and preserves it for every
pattern with codes `'0' .. '7'` whose occupied cells map to rows at most 19 and columns in
[0,9], whether it ends in game-over or not; and `clearLines` preserves it. -/
theorem wellFormed_invariant :
    (∀ g : Game, WellFormed (initGrid g).grid) ∧
    (∀ (g : Game) (shape : Shape), WellFormed g.grid → CodesOK shape →
      (∀ row col ch, Occupied shape row col ch →
        0 ≤ (col : Int) + g.player.x ∧ (col : Int) + g.player.x ≤ 9 ∧
          (row : Int) + g.player.y ≤ 19) →
      ∃ p, placeShape g shape = some p ∧ WellFormed p.game.grid) ∧
    (∀ g : Game, WellFormed g.grid → WellFormed (clearLines g).2.grid) := by
  refine ⟨?_, ?_, ?_⟩
  · intro g
    rw [initGrid_grid]
    refine ⟨⟨rfl, ?_⟩, ?_⟩
    · intro ln hln
      rw [List.eq_of_mem_replicate hln]
      rfl
    · intro ln hln
      rw [List.eq_of_mem_replicate hln]
      exact codesOK_zeroes
  · intro g shape hw hs hb
    obtain ⟨p, hp, _, hgp, _, hcp, _⟩ := placeScan_spec (cells shape) g hw.1
      (fun row col ch hm hch => hb row col ch ⟨(mem_cells shape row col ch).mp hm, hch⟩)
    refine ⟨p, hp, hgp, ?_⟩
    intro ln1 h1 c hc
    rcases hcp ln1 h1 c hc with ⟨ln, hln, hcl⟩ | ⟨row, col, hm, _⟩
    · exact hw.2 ln hln c hcl
    · obtain ⟨ln, hln, hcl⟩ := cellAt_mem shape row col c ((mem_cells shape row col c).mp hm)
      exact hs ln hln c hcl
  · intro g hw
    have h20 : g.grid.length = 20 := hw.1.1
    refine ⟨clearLines_gridOK g hw.1, ?_⟩
    rw [clearLines_snd g (by omega)]
    intro ln hln c hc
    simp only [List.mem_append, List.mem_replicate, List.mem_filter] at hln
    rcases hln with ⟨_, rfl⟩ | ⟨hm, _⟩
    · exact codesOK_zeroes c hc
    · exact hw.2 ln hm c hc


theorem wellFormed_invariant_witness :
    WellFormed (initGrid (gameAt 4 (-2) shapeO)).grid ∧
    (∃ p, placeShape (gameAt 4 17 shapeO) shapeO = some p ∧ WellFormed p.game.grid) ∧
    WellFormed (clearLines (initGrid (gameAt 4 17 shapeO))).2.grid :=
  ⟨wellFormed_invariant.1 _,
    wellFormed_invariant.2.1 (gameAt 4 17 shapeO) shapeO
      (wellFormed_invariant.1 (gameAt 4 17 shapeO))
      (by unfold CodesOK; decide) (forall_occupied shapeO _ (by decide)),
    wellFormed_invariant.2.2 _ (wellFormed_invariant.1 _)⟩

/-- C7: for every pattern, player position and grid, `collideGrid` is true if and only if
some occupied pattern cell `(row, col)` has world column `col + x` below 0 or above 9, or
world row `row + y` above 19; replacing the grid by any other does not change the result. -/
theorem collideGrid_iff (g : Game) (shape : Shape) :
    (collideGrid g shape = true ↔
      ∃ row col ch, Occupied shape row col ch ∧
        ((col : Int) + g.player.x < 0 ∨ (col : Int) + g.player.x > 9 ∨
          (row : Int) + g.player.y > 19)) ∧
    (∀ grid1 : Grid, collideGrid { g with grid := grid1 } shape = collideGrid g shape) := by
  refine ⟨?_, fun _ => rfl⟩
  simp only [collideGrid, List.any_eq_true, Bool.and_eq_true, Bool.or_eq_true,
    decide_eq_true_eq, Prod.exists]
  constructor
  · rintro ⟨row, col, ch, hm, hch, h⟩
    refine ⟨row, col, ch, ⟨(mem_cells shape row col ch).mp hm, hch⟩, ?_⟩
    rcases h with (h | h) | h
    · exact Or.inr (Or.inr h)
    · exact Or.inl h
    · exact Or.inr (Or.inl h)
  · rintro ⟨row, col, ch, ho, h⟩
    refine ⟨row, col, ch, (mem_cells shape row col ch).mpr ho.1, ho.2, ?_⟩
    rcases h with h | h | h
    · exact Or.inl (Or.inr h)
    · exact Or.inr h
    · exact Or.inl (Or.inl h)

theorem gridAt_some (grid : Grid) (hg : GridOK grid) (r c : Int)
    (hr : 0 ≤ r ∧ r ≤ 19) (hc : 0 ≤ c ∧ c ≤ 9) : ∃ v, gridAt grid r c = some v := by
  obtain ⟨hlen, hrows⟩ := hg
  have hn : r.toNat < grid.length := by omega
  have hl : grid[r.toNat].length = 10 := hrows _ (List.getElem_mem hn)
  have hm : c.toNat < grid[r.toNat].length := by omega
  exact ⟨grid[r.toNat][c.toNat], by
    simp [gridAt, hr.1, hc.1, cellAt, List.getElem?_eq_getElem hn, List.getElem?_eq_getElem hm]⟩

theorem collideShapeScan_cons (g : Game) (hg : GridOK g.grid) (row col ch : Nat)
    (rest : List (Nat × Nat × Nat))
    (hb : ch > 48 → 0 ≤ (col : Int) + g.player.x ∧ (col : Int) + g.player.x ≤ 9) :
    (Hit g row col ch → collideShapeScan g ((row, col, ch) :: rest) = some true) ∧
    (¬ Hit g row col ch →
      collideShapeScan g ((row, col, ch) :: rest) = collideShapeScan g rest) := by
  simp only [collideShapeScan, Hit]
  by_cases hch : ch > 48
  · by_cases h19 : (row : Int) + g.player.y > 19
    · simp [hch, h19]
    · by_cases h0 : (row : Int) + g.player.y > 0
      · obtain ⟨v, hv⟩ := gridAt_some g.grid hg ((row : Int) + g.player.y)
          ((col : Int) + g.player.x) ⟨by omega, by omega⟩ (hb hch)
        by_cases hv48 : v > 48
        · have h19a : (row : Int) + g.player.y ≤ 19 := by omega
          simp [hch, h19, h0, hv, hv48, h19a]
        · simp [hch, h19, h0, hv, hv48]
      · simp [hch, h19, h0]
  · simp [hch]

theorem collideShapeScan_spec (g : Game) (hg : GridOK g.grid) (cs : List (Nat × Nat × Nat))
    (hb : ∀ row col ch, (row, col, ch) ∈ cs → ch > 48 →
      0 ≤ (col : Int) + g.player.x ∧ (col : Int) + g.player.x ≤ 9) :
    ∃ b, collideShapeScan g cs = some b ∧
      (b = true ↔ ∃ row col ch, (row, col, ch) ∈ cs ∧ Hit g row col ch) := by
  induction cs with
  | nil => exact ⟨false, rfl, by simp⟩
  | cons cell rest ih =>
    obtain ⟨row, col, ch⟩ := cell
    obtain ⟨b, hb1, hiff⟩ := ih (fun r1 c1 ch1 hm => hb r1 c1 ch1 (List.mem_cons_of_mem _ hm))
    obtain ⟨hyes, hno⟩ := collideShapeScan_cons g hg row col ch rest
      (hb row col ch (List.mem_cons_self _ _))
    by_cases hh : Hit g row col ch
    · exact ⟨true, hyes hh, iff_of_true rfl ⟨row, col, ch, List.mem_cons_self _ _, hh⟩⟩
    · refine ⟨b, by rw [hno hh, hb1], ?_⟩
      rw [hiff]
      constructor
      · rintro ⟨r1, c1, ch1, hm, h⟩
        exact ⟨r1, c1, ch1, List.mem_cons_of_mem _ hm, h⟩
      · rintro ⟨r1, c1, ch1, hm, h⟩
        rcases List.mem_cons.mp hm with he | hm1
        · simp only [Prod.mk.injEq] at he
          obtain ⟨rfl, rfl, rfl⟩ := he
          exact absurd h hh
        · exact ⟨r1, c1, ch1, hm1, h⟩

/-- C8: on a playfield of 20 rows of 10 cells, for every pattern and position whose occupied
cells map to columns in [0,9], `collideShape` is defined, and it is true if and only if some
occupied pattern cell maps to a world row above 19, or to a world row `r` with `0 < r ≤ 19`
whose grid cell is non-empty; an occupied cell at a world row `≤ 0` never causes a collision:
when every occupied cell maps to a row `≤ 0` the result is false whatever the grid holds. -/
theorem collideShape_iff (g : Game) (shape : Shape) (hg : GridOK g.grid)
    (hb : ∀ row col ch, Occupied shape row col ch →
      0 ≤ (col : Int) + g.player.x ∧ (col : Int) + g.player.x ≤ 9) :
    ∃ b, collideShape g shape = some b ∧
      (b = true ↔ ∃ row col ch, Occupied shape row col ch ∧
        ((row : Int) + g.player.y > 19 ∨
          (0 < (row : Int) + g.player.y ∧ (row : Int) + g.player.y ≤ 19 ∧
            ∃ v, gridAt g.grid ((row : Int) + g.player.y) ((col : Int) + g.player.x) = some v ∧
              v > 48))) ∧
      ((∀ row col ch, Occupied shape row col ch → (row : Int) + g.player.y ≤ 0) → b = false) := by
  obtain ⟨b, hb1, hiff⟩ := collideShapeScan_spec g hg (cells shape)
    (fun row col ch hm hch => hb row col ch ⟨(mem_cells shape row col ch).mp hm, hch⟩)
  have hiff1 : b = true ↔ ∃ row col ch, Occupied shape row col ch ∧
      ((row : Int) + g.player.y > 19 ∨
        (0 < (row : Int) + g.player.y ∧ (row : Int) + g.player.y ≤ 19 ∧
          ∃ v, gridAt g.grid ((row : Int) + g.player.y) ((col : Int) + g.player.x) = some v ∧
            v > 48)) := by
    rw [hiff]
    constructor
    · rintro ⟨row, col, ch, hm, hch, h⟩
      exact ⟨row, col, ch, ⟨(mem_cells shape row col ch).mp hm, hch⟩, h⟩
    · rintro ⟨row, col, ch, ho, h⟩
      exact ⟨row, col, ch, (mem_cells shape row col ch).mpr ho.1, ho.2, h⟩
  refine ⟨b, hb1, hiff1, ?_⟩
  intro hall
  cases hbv : b with
  | false => rfl
  | true =>
    obtain ⟨row, col, ch, ho, h⟩ := hiff1.mp hbv
    have := hall row col ch ho
    omega


theorem collideShape_iff_witness :
    GridOK (gameAt 4 18 shapeO).grid ∧
    (∀ row col ch, Occupied shapeO row col ch →
      0 ≤ (col : Int) + (gameAt 4 18 shapeO).player.x ∧
        (col : Int) + (gameAt 4 18 shapeO).player.x ≤ 9) ∧
    ∃ b, collideShape (gameAt 4 18 shapeO) shapeO = some b ∧
      (b = true ↔ ∃ row col ch, Occupied shapeO row col ch ∧
        ((row : Int) + (gameAt 4 18 shapeO).player.y > 19 ∨
          (0 < (row : Int) + (gameAt 4 18 shapeO).player.y ∧
            (row : Int) + (gameAt 4 18 shapeO).player.y ≤ 19 ∧
            ∃ v, gridAt (gameAt 4 18 shapeO).grid ((row : Int) + (gameAt 4 18 shapeO).player.y)
                ((col : Int) + (gameAt 4 18 shapeO).player.x) = some v ∧ v > 48))) ∧
      ((∀ row col ch, Occupied shapeO row col ch →
          (row : Int) + (gameAt 4 18 shapeO).player.y ≤ 0) → b = false) :=
  ⟨gridOK_gameAt _ _ _, forall_occupied shapeO _ (by decide),
    collideShape_iff (gameAt 4 18 shapeO) shapeO (gridOK_gameAt _ _ _)
      (forall_occupied shapeO _ (by decide))⟩


theorem gravityUntilLock_mono (n : Nat) :
    ∀ (g : Game) (r : Placed × Nat), gravityUntilLock n g = some r →
      ∀ fuel, n ≤ fuel → gravityUntilLock fuel g = some r := by
  induction n with
  | zero => intro g r h; simp [gravityUntilLock] at h
  | succ n ih =>
    intro g r h fuel hf
    obtain ⟨m, rfl⟩ : ∃ m, fuel = m + 1 := ⟨fuel - 1, by omega⟩
    simp only [gravityUntilLock] at h ⊢
    cases hl : lockCheck (descend g) with
    | none => simp [hl] at h
    | some lc =>
      cases lc with
      | placed p => simpa [hl] using h
      | falling g1 =>
        simp only [hl] at h ⊢
        cases hr : gravityUntilLock n g1 with
        | none => simp [hr] at h
        | some r1 =>
          rw [ih g1 r1 hr m (by omega)]
          simpa [hr] using h

theorem lock_on_floor (g0 gA : Game) (shape : Shape) (n : Nat)
    (hrun : gravityUntilLock n g0 = (placeShape gA shape).map (fun p => (p, n)))
    (hg : GridOK gA.grid) (hempty : ∀ ln ∈ gA.grid, ∀ c ∈ ln, c = 48)
    (hx : gA.player.x = 4)
    (hb : ∀ row col ch, Occupied shape row col ch →
      0 ≤ (row : Int) + gA.player.y ∧ (row : Int) + gA.player.y ≤ 19 ∧
        0 ≤ (col : Int) + gA.player.x ∧ (col : Int) + gA.player.x ≤ 9) :
    ∃ g1,
      (∀ fuel, n ≤ fuel → gravityUntilLock fuel g0 = some (.locked g1, n)) ∧
      g1.player = gA.player ∧
      GridOK g1.grid ∧
      (∀ row col ch, Occupied shape row col ch →
        gridAt g1.grid ((row : Int) + g1.player.y) ((col : Int) + 4) = some ch) ∧
      (∀ (R C : Int) (v : Nat), gridAt g1.grid R C = some v → v > 48 →
        ∃ row col, Occupied shape row col v ∧
          (row : Int) + g1.player.y = R ∧ (col : Int) + 4 = C) := by
  obtain ⟨grid1, hp, hG, hwr, hfr⟩ := placeShape_frame gA shape hg hb
  rw [hp] at hrun
  refine ⟨{ gA with grid := grid1 }, fun fuel hf => gravityUntilLock_mono n g0 _ hrun fuel hf,
    rfl, hG, ?_, ?_⟩
  · intro row col ch ho
    have := hwr row col ch ho
    rw [hx] at this
    exact this
  · intro R C v hv hv48
    by_contra hno
    have hsame := hfr R C (by
      rintro ⟨row, col, ch, ho, h1, h2⟩
      have hw := hwr row col ch ho
      rw [h1, h2, hv] at hw
      have : v = ch := Option.some.inj hw
      subst this
      rw [hx] at h2
      exact hno ⟨row, col, ho, h1, h2⟩)
    rw [hv] at hsame
    simp only [gridAt] at hsame
    split at hsame
    · obtain ⟨ln, hln, hc⟩ := cellAt_mem _ _ _ _ hsame.symm
      have := hempty ln hln v hc
      omega
    · cases hsame


theorem exists_occupied (shape : Shape) (P : Nat → Nat → Nat → Prop)
    (h : ∃ cell ∈ cells shape, cell.2.2 > 48 ∧ P cell.1 cell.2.1 cell.2.2) :
    ∃ row col ch, Occupied shape row col ch ∧ P row col ch := by
  obtain ⟨⟨row, col, ch⟩, hm, hch, hp⟩ := h
  exact ⟨row, col, ch, ⟨(mem_cells shape row col ch).mp hm, hch⟩, hp⟩

theorem lock_of_spawn (g0 : Game) (shape : Shape) (y1 : Int) (n : Nat)
    (hgrid : g0.grid = List.replicate 20 zeroes)
    (hrun : gravityUntilLock n g0
      = (placeShape { g0 with player := ⟨4, y1, shape⟩ } shape).map (fun p => (p, n)))
    (hb : ∀ cell ∈ cells shape, cell.2.2 > 48 →
      0 ≤ (cell.1 : Int) + y1 ∧ (cell.1 : Int) + y1 ≤ 19 ∧
        0 ≤ (cell.2.1 : Int) + 4 ∧ (cell.2.1 : Int) + 4 ≤ 9)
    (hlow : ∃ cell ∈ cells shape, cell.2.2 > 48 ∧ (cell.1 : Int) + y1 = 19) :
    ∃ g1,
      (∀ fuel, n ≤ fuel → gravityUntilLock fuel g0 = some (.locked g1, n)) ∧
      g1.player = ⟨4, y1, shape⟩ ∧
      GridOK g1.grid ∧
      (∀ row col ch, Occupied shape row col ch → (row : Int) + g1.player.y ≤ 19) ∧
      (∃ row col ch, Occupied shape row col ch ∧ (row : Int) + g1.player.y = 19) ∧
      (∀ row col ch, Occupied shape row col ch →
        gridAt g1.grid ((row : Int) + g1.player.y) ((col : Int) + 4) = some ch) ∧
      (∀ (R C : Int) (v : Nat), gridAt g1.grid R C = some v → v > 48 →
        ∃ row col, Occupied shape row col v ∧
          (row : Int) + g1.player.y = R ∧ (col : Int) + 4 = C) := by
  have hg : GridOK ({ g0 with player := ⟨4, y1, shape⟩ } : Game).grid := by
    show GridOK g0.grid
    rw [hgrid]
    exact ⟨rfl, fun ln hln => by rw [List.eq_of_mem_replicate hln]; rfl⟩
  have hempty : ∀ ln ∈ ({ g0 with player := ⟨4, y1, shape⟩ } : Game).grid, ∀ c ∈ ln, c = 48 := by
    show ∀ ln ∈ g0.grid, ∀ c ∈ ln, c = 48
    rw [hgrid]
    intro ln hln c hc
    rw [List.eq_of_mem_replicate hln] at hc
    exact List.eq_of_mem_replicate (n := 10) hc
  obtain ⟨g1, hfuel, hpl, hG, hw, hconv⟩ :=
    lock_on_floor g0 { g0 with player := ⟨4, y1, shape⟩ } shape n hrun hg hempty rfl
      (forall_occupied shape _ hb)
  have hy : g1.player.y = y1 := by rw [hpl]
  refine ⟨g1, hfuel, hpl, hG, ?_, ?_, hw, hconv⟩
  · rw [hy]
    exact forall_occupied shape _ (fun cell hm hch => (hb cell hm hch).2.1)
  · rw [hy]
    exact exists_occupied shape _ hlow

theorem gravity_run_I (nx : Nat) :
    gravityUntilLock 22
        { newGame nx with
          aggr := [1, 0, 0, 0, 0, 0, 0]
          player := ⟨4, -3, [str4 0 0 0 0, str4 1 1 1 1, str4 0 0 0 0, str4 0 0 0 0]⟩ }
      = (placeShape
          { newGame nx with
            aggr := [1, 0, 0, 0, 0, 0, 0]
            player := ⟨4, 18, [str4 0 0 0 0, str4 1 1 1 1, str4 0 0 0 0, str4 0 0 0 0]⟩ }
          [str4 0 0 0 0, str4 1 1 1 1, str4 0 0 0 0, str4 0 0 0 0]).map (fun p => (p, 22)) :=
  rfl

theorem gravity_run_J (nx : Nat) :
    gravityUntilLock 21
        { newGame nx with
          aggr := [0, 1, 0, 0, 0, 0, 0]
          player := ⟨4, -3, [str4 0 0 0 0, str4 2 2 2 0, str4 0 0 2 0, str4 0 0 0 0]⟩ }
      = (placeShape
          { newGame nx with
            aggr := [0, 1, 0, 0, 0, 0, 0]
            player := ⟨4, 17, [str4 0 0 0 0, str4 2 2 2 0, str4 0 0 2 0, str4 0 0 0 0]⟩ }
          [str4 0 0 0 0, str4 2 2 2 0, str4 0 0 2 0, str4 0 0 0 0]).map (fun p => (p, 21)) :=
  rfl

theorem gravity_run_L (nx : Nat) :
    gravityUntilLock 21
        { newGame nx with
          aggr := [0, 0, 1, 0, 0, 0, 0]
          player := ⟨4, -3, [str4 0 0 0 0, str4 0 3 3 3, str4 0 3 0 0, str4 0 0 0 0]⟩ }
      = (placeShape
          { newGame nx with
            aggr := [0, 0, 1, 0, 0, 0, 0]
            player := ⟨4, 17, [str4 0 0 0 0, str4 0 3 3 3, str4 0 3 0 0, str4 0 0 0 0]⟩ }
          [str4 0 0 0 0, str4 0 3 3 3, str4 0 3 0 0, str4 0 0 0 0]).map (fun p => (p, 21)) :=
  rfl

theorem gravity_run_O (nx : Nat) :
    gravityUntilLock 21
        { newGame nx with
          aggr := [0, 0, 0, 1, 0, 0, 0]
          player := ⟨4, -3, [str4 0 0 0 0, str4 0 4 4 0, str4 0 4 4 0, str4 0 0 0 0]⟩ }
      = (placeShape
          { newGame nx with
            aggr := [0, 0, 0, 1, 0, 0, 0]
            player := ⟨4, 17, [str4 0 0 0 0, str4 0 4 4 0, str4 0 4 4 0, str4 0 0 0 0]⟩ }
          [str4 0 0 0 0, str4 0 4 4 0, str4 0 4 4 0, str4 0 0 0 0]).map (fun p => (p, 21)) :=
  rfl

theorem gravity_run_S (nx : Nat) :
    gravityUntilLock 21
        { newGame nx with
          aggr := [0, 0, 0, 0, 1, 0, 0]
          player := ⟨4, -3, [str4 0 0 0 0, str4 0 5 5 0, str4 5 5 0 0, str4 0 0 0 0]⟩ }
      = (placeShape
          { newGame nx with
            aggr := [0, 0, 0, 0, 1, 0, 0]
            player := ⟨4, 17, [str4 0 0 0 0, str4 0 5 5 0, str4 5 5 0 0, str4 0 0 0 0]⟩ }
          [str4 0 0 0 0, str4 0 5 5 0, str4 5 5 0 0, str4 0 0 0 0]).map (fun p => (p, 21)) :=
  rfl

theorem gravity_run_T (nx : Nat) :
    gravityUntilLock 21
        { newGame nx with
          aggr := [0, 0, 0, 0, 0, 1, 0]
          player := ⟨4, -3, [str4 0 0 0 0, str4 6 6 6 0, str4 0 6 0 0, str4 0 0 0 0]⟩ }
      = (placeShape
          { newGame nx with
            aggr := [0, 0, 0, 0, 0, 1, 0]
            player := ⟨4, 17, [str4 0 0 0 0, str4 6 6 6 0, str4 0 6 0 0, str4 0 0 0 0]⟩ }
          [str4 0 0 0 0, str4 6 6 6 0, str4 0 6 0 0, str4 0 0 0 0]).map (fun p => (p, 21)) :=
  rfl

theorem gravity_run_Z (nx : Nat) :
    gravityUntilLock 21
        { newGame nx with
          aggr := [0, 0, 0, 0, 0, 0, 1]
          player := ⟨4, -3, [str4 0 0 0 0, str4 7 7 0 0, str4 0 7 7 0, str4 0 0 0 0]⟩ }
      = (placeShape
          { newGame nx with
            aggr := [0, 0, 0, 0, 0, 0, 1]
            player := ⟨4, 17, [str4 0 0 0 0, str4 7 7 0 0, str4 0 7 7 0, str4 0 0 0 0]⟩ }
          [str4 0 0 0 0, str4 7 7 0 0, str4 0 7 7 0, str4 0 0 0 0]).map (fun p => (p, 21)) :=
  rfl

/-- C9: for each of the 7 catalog kinds, on the empty playfield with the piece spawned by
`initShape(4, -3, kind)`, repeating the gravity descent `player.y++` followed by the lock check
ends, after finitely many descents, in `placeShape` running to its end with no game-over
(with any fuel of at least that many steps); the piece rests at column offset 4 with its
lowest occupied row on grid row 19, every occupied pattern cell `(row, col)` is in the grid at
`(row + player.y, col + 4)`, and every non-empty grid cell is such a cell; for the `O` kind
the non-empty grid cells are exactly rows 18 and 19 of columns 5 and 6. -/
theorem gravity_locks_on_floor (k : Nat) (hk : k < 7) (nx : Nat) :
    ∃ shape g0 g1 n,
      shapes[k]? = some shape ∧
      initShape (newGame nx) 4 (-3) k = some g0 ∧
      (∀ fuel, n ≤ fuel → gravityUntilLock fuel g0 = some (.locked g1, n)) ∧
      g1.player.x = 4 ∧ g1.player.shape = shape ∧
      GridOK g1.grid ∧
      (∀ row col ch, Occupied shape row col ch → (row : Int) + g1.player.y ≤ 19) ∧
      (∃ row col ch, Occupied shape row col ch ∧ (row : Int) + g1.player.y = 19) ∧
      (∀ row col ch, Occupied shape row col ch →
        gridAt g1.grid ((row : Int) + g1.player.y) ((col : Int) + 4) = some ch) ∧
      (∀ (R C : Int) (v : Nat), gridAt g1.grid R C = some v → v > 48 →
        ∃ row col, Occupied shape row col v ∧
          (row : Int) + g1.player.y = R ∧ (col : Int) + 4 = C) ∧
      (k = 3 → ∀ (R C : Int) (v : Nat), gridAt g1.grid R C = some v →
        (v > 48 ↔ (R = 18 ∨ R = 19) ∧ (C = 5 ∨ C = 6))) := by
  have main : ∀ (shape : Shape) (g0 : Game) (y1 : Int) (n : Nat),
      shapes[k]? = some shape → initShape (newGame nx) 4 (-3) k = some g0 →
      g0.grid = List.replicate 20 zeroes →
      gravityUntilLock n g0
        = (placeShape { g0 with player := ⟨4, y1, shape⟩ } shape).map (fun p => (p, n)) →
      (∀ cell ∈ cells shape, cell.2.2 > 48 →
        0 ≤ (cell.1 : Int) + y1 ∧ (cell.1 : Int) + y1 ≤ 19 ∧
          0 ≤ (cell.2.1 : Int) + 4 ∧ (cell.2.1 : Int) + 4 ≤ 9) →
      (∃ cell ∈ cells shape, cell.2.2 > 48 ∧ (cell.1 : Int) + y1 = 19) →
      (k = 3 → y1 = 17 ∧ (∀ cell ∈ cells shape, cell.2.2 > 48 →
        (cell.1 = 1 ∨ cell.1 = 2) ∧ (cell.2.1 = 1 ∨ cell.2.1 = 2)) ∧
        Occupied shape 1 1 52 ∧ Occupied shape 1 2 52 ∧ Occupied shape 2 1 52 ∧
        Occupied shape 2 2 52) →
      ∃ shape g0 g1 n,
        shapes[k]? = some shape ∧
        initShape (newGame nx) 4 (-3) k = some g0 ∧
        (∀ fuel, n ≤ fuel → gravityUntilLock fuel g0 = some (.locked g1, n)) ∧
        g1.player.x = 4 ∧ g1.player.shape = shape ∧
        GridOK g1.grid ∧
        (∀ row col ch, Occupied shape row col ch → (row : Int) + g1.player.y ≤ 19) ∧
        (∃ row col ch, Occupied shape row col ch ∧ (row : Int) + g1.player.y = 19) ∧
        (∀ row col ch, Occupied shape row col ch →
          gridAt g1.grid ((row : Int) + g1.player.y) ((col : Int) + 4) = some ch) ∧
        (∀ (R C : Int) (v : Nat), gridAt g1.grid R C = some v → v > 48 →
          ∃ row col, Occupied shape row col v ∧
            (row : Int) + g1.player.y = R ∧ (col : Int) + 4 = C) ∧
        (k = 3 → ∀ (R C : Int) (v : Nat), gridAt g1.grid R C = some v →
          (v > 48 ↔ (R = 18 ∨ R = 19) ∧ (C = 5 ∨ C = 6))) := by
    intro shape g0 y1 n hs hi hgrid hrun hb hlow hO
    obtain ⟨g1, hfuel, hpl, hG, hle, hex, hw, hconv⟩ :=
      lock_of_spawn g0 shape y1 n hgrid hrun hb hlow
    refine ⟨shape, g0, g1, n, hs, hi, hfuel, by rw [hpl], by rw [hpl], hG, hle, hex, hw,
      hconv, ?_⟩
    intro hk3 R C v hv
    obtain ⟨hy17, hcells, o11, o12, o21, o22⟩ := hO hk3
    have hy : g1.player.y = 17 := by rw [hpl]; exact hy17
    constructor
    · intro hv48
      obtain ⟨row, col, ho, h1, h2⟩ := hconv R C v hv hv48
      have := forall_occupied shape
        (fun row col _ => (row = 1 ∨ row = 2) ∧ (col = 1 ∨ col = 2)) hcells row col v ho
      rw [hy] at h1
      omega
    · rintro ⟨hR, hC⟩
      have h11 := hw 1 1 52 o11
      have h12 := hw 1 2 52 o12
      have h21 := hw 2 1 52 o21
      have h22 := hw 2 2 52 o22
      rw [hy] at h11 h12 h21 h22
      norm_num at h11 h12 h21 h22
      rcases hR with rfl | rfl <;> rcases hC with rfl | rfl
      · rw [h11] at hv; have := Option.some.inj hv; omega
      · rw [h12] at hv; have := Option.some.inj hv; omega
      · rw [h21] at hv; have := Option.some.inj hv; omega
      · rw [h22] at hv; have := Option.some.inj hv; omega
  interval_cases k
  · exact main [str4 0 0 0 0, str4 1 1 1 1, str4 0 0 0 0, str4 0 0 0 0]
      { newGame nx with
        aggr := [1, 0, 0, 0, 0, 0, 0]
        player := ⟨4, -3, [str4 0 0 0 0, str4 1 1 1 1, str4 0 0 0 0, str4 0 0 0 0]⟩ }
      18 22 rfl rfl rfl (gravity_run_I nx) (by decide) (by decide)
      (fun h => absurd h (by decide))
  · exact main [str4 0 0 0 0, str4 2 2 2 0, str4 0 0 2 0, str4 0 0 0 0]
      { newGame nx with
        aggr := [0, 1, 0, 0, 0, 0, 0]
        player := ⟨4, -3, [str4 0 0 0 0, str4 2 2 2 0, str4 0 0 2 0, str4 0 0 0 0]⟩ }
      17 21 rfl rfl rfl (gravity_run_J nx) (by decide) (by decide)
      (fun h => absurd h (by decide))
  · exact main [str4 0 0 0 0, str4 0 3 3 3, str4 0 3 0 0, str4 0 0 0 0]
      { newGame nx with
        aggr := [0, 0, 1, 0, 0, 0, 0]
        player := ⟨4, -3, [str4 0 0 0 0, str4 0 3 3 3, str4 0 3 0 0, str4 0 0 0 0]⟩ }
      17 21 rfl rfl rfl (gravity_run_L nx) (by decide) (by decide)
      (fun h => absurd h (by decide))
  · exact main [str4 0 0 0 0, str4 0 4 4 0, str4 0 4 4 0, str4 0 0 0 0]
      { newGame nx with
        aggr := [0, 0, 0, 1, 0, 0, 0]
        player := ⟨4, -3, [str4 0 0 0 0, str4 0 4 4 0, str4 0 4 4 0, str4 0 0 0 0]⟩ }
      17 21 rfl rfl rfl (gravity_run_O nx) (by decide) (by decide)
      (fun _ => ⟨rfl, by decide, ⟨rfl, by decide⟩, ⟨rfl, by decide⟩, ⟨rfl, by decide⟩,
        ⟨rfl, by decide⟩⟩)
  · exact main [str4 0 0 0 0, str4 0 5 5 0, str4 5 5 0 0, str4 0 0 0 0]
      { newGame nx with
        aggr := [0, 0, 0, 0, 1, 0, 0]
        player := ⟨4, -3, [str4 0 0 0 0, str4 0 5 5 0, str4 5 5 0 0, str4 0 0 0 0]⟩ }
      17 21 rfl rfl rfl (gravity_run_S nx) (by decide) (by decide)
      (fun h => absurd h (by decide))
  · exact main [str4 0 0 0 0, str4 6 6 6 0, str4 0 6 0 0, str4 0 0 0 0]
      { newGame nx with
        aggr := [0, 0, 0, 0, 0, 1, 0]
        player := ⟨4, -3, [str4 0 0 0 0, str4 6 6 6 0, str4 0 6 0 0, str4 0 0 0 0]⟩ }
      17 21 rfl rfl rfl (gravity_run_T nx) (by decide) (by decide)
      (fun h => absurd h (by decide))
  · exact main [str4 0 0 0 0, str4 7 7 0 0, str4 0 7 7 0, str4 0 0 0 0]
      { newGame nx with
        aggr := [0, 0, 0, 0, 0, 0, 1]
        player := ⟨4, -3, [str4 0 0 0 0, str4 7 7 0 0, str4 0 7 7 0, str4 0 0 0 0]⟩ }
      17 21 rfl rfl rfl (gravity_run_Z nx) (by decide) (by decide)
      (fun h => absurd h (by decide))


theorem hardDrop_aux (g : Game) (hg : GridOK g.grid)
    (hb : ∀ row col ch, Occupied g.player.shape row col ch →
      0 ≤ (col : Int) + g.player.x ∧ (col : Int) + g.player.x ≤ 9)
    (row col ch : Nat) (ho : Occupied g.player.shape row col ch) :
    ∀ (d : Nat) (y : Int), 19 - ((row : Int) + y) ≤ d →
      ∃ y1 : Int, y ≤ y1 ∧
        collideShape (setY g (y1 + 1)) g.player.shape = some true ∧
        (∀ y2, y ≤ y2 → y2 < y1 → collideShape (setY g (y2 + 1)) g.player.shape = some false) ∧
        (∀ fuel, d + 1 ≤ fuel → hardDropLoop fuel (setY g y) = some (setY g y1)) := by
  have hscan : ∀ y : Int, ∃ b, collideShape (setY g y) g.player.shape = some b ∧
      (b = true ↔ ∃ r1 c1 ch1, (r1, c1, ch1) ∈ cells g.player.shape ∧ Hit (setY g y) r1 c1 ch1) :=
    fun y => collideShapeScan_spec (setY g y) hg (cells g.player.shape)
      (fun r1 c1 ch1 hm hch => hb r1 c1 ch1 ⟨(mem_cells _ r1 c1 ch1).mp hm, hch⟩)
  have hstep : ∀ (y : Int) (fuel : Nat), hardDropLoop (fuel + 1) (setY g y) =
      match collideShape (setY g (y + 1)) g.player.shape with
      | some true => some (setY g y)
      | some false => hardDropLoop fuel (setY g (y + 1))
      | none => none := by
    intro y fuel
    have e : ascend (descend (setY g y)) = setY g y := by
      simp only [ascend, descend, setY, add_sub_cancel_right]
    simp only [hardDropLoop, e]
    rfl
  intro d
  induction d with
  | zero =>
    intro y hd
    obtain ⟨b, hc, hiff⟩ := hscan (y + 1)
    have hbt : b = true := hiff.mpr ⟨row, col, ch, (mem_cells _ row col ch).mpr ho.1, ho.2,
      Or.inl (by show (row : Int) + (y + 1) > 19; omega)⟩
    subst hbt
    refine ⟨y, le_refl y, hc, fun y2 h1 h2 => absurd h2 (by omega), ?_⟩
    intro fuel hf
    obtain ⟨m, rfl⟩ : ∃ m, fuel = m + 1 := ⟨fuel - 1, by omega⟩
    rw [hstep, hc]
  | succ d ih =>
    intro y hd
    obtain ⟨b, hc, _⟩ := hscan (y + 1)
    cases b with
    | true =>
      refine ⟨y, le_refl y, hc, fun y2 h1 h2 => absurd h2 (by omega), ?_⟩
      intro fuel hf
      obtain ⟨m, rfl⟩ : ∃ m, fuel = m + 1 := ⟨fuel - 1, by omega⟩
      rw [hstep, hc]
    | false =>
      obtain ⟨y1, hle, htrue, hfalse, hloop⟩ := ih (y + 1) (by omega)
      refine ⟨y1, by omega, htrue, ?_, ?_⟩
      · intro y2 h1 h2
        by_cases he : y2 = y
        · subst he
          exact hc
        · exact hfalse y2 (by omega) h2
      · intro fuel hf
        obtain ⟨m, rfl⟩ : ∃ m, fuel = m + 1 := ⟨fuel - 1, by omega⟩
        rw [hstep, hc]
        exact hloop m (by omega)

theorem gravity_locks_on_floor_witness :
    3 < 7 ∧
    ∃ shape g0 g1 n,
      shapes[3]? = some shape ∧
      initShape (newGame 0) 4 (-3) 3 = some g0 ∧
      (∀ fuel, n ≤ fuel → gravityUntilLock fuel g0 = some (.locked g1, n)) ∧
      g1.player.x = 4 ∧ g1.player.shape = shape ∧
      GridOK g1.grid ∧
      (∀ row col ch, Occupied shape row col ch → (row : Int) + g1.player.y ≤ 19) ∧
      (∃ row col ch, Occupied shape row col ch ∧ (row : Int) + g1.player.y = 19) ∧
      (∀ row col ch, Occupied shape row col ch →
        gridAt g1.grid ((row : Int) + g1.player.y) ((col : Int) + 4) = some ch) ∧
      (∀ (R C : Int) (v : Nat), gridAt g1.grid R C = some v → v > 48 →
        ∃ row col, Occupied shape row col v ∧
          (row : Int) + g1.player.y = R ∧ (col : Int) + 4 = C) ∧
      (3 = 3 → ∀ (R C : Int) (v : Nat), gridAt g1.grid R C = some v →
        (v > 48 ↔ (R = 18 ∨ R = 19) ∧ (C = 5 ∨ C = 6))) :=
  ⟨by decide, gravity_locks_on_floor 3 (by decide) 0⟩

/-- C10: on a playfield of 20 rows of 10 cells, for every pattern with at least one occupied
cell, at a position `(x, y0)` whose occupied columns lie in [0,9], the hard-drop loop of
`KEY_UP` terminates (with any fuel of at least `n` steps) in the state that differs from the
initial one only in `player.y`, which is the least `y1 ≥ y0` such that `collideShape` holds
at `(x, y1 + 1)`; the handler then returns what `placeShape` does at that position, and no
clock takes part in it. -/
theorem hardDrop_spec (g : Game) (hg : GridOK g.grid)
    (hocc : ∃ row col ch, Occupied g.player.shape row col ch)
    (hb : ∀ row col ch, Occupied g.player.shape row col ch →
      0 ≤ (col : Int) + g.player.x ∧ (col : Int) + g.player.x ≤ 9) :
    ∃ (y1 : Int) (n : Nat), g.player.y ≤ y1 ∧
      collideShape (setY g (y1 + 1)) g.player.shape = some true ∧
      (∀ y2, g.player.y ≤ y2 → y2 < y1 →
        collideShape (setY g (y2 + 1)) g.player.shape = some false) ∧
      (∀ fuel, n ≤ fuel →
        hardDropLoop fuel g = some { g with player := ⟨g.player.x, y1, g.player.shape⟩ } ∧
        keyUp fuel g
          = placeShape { g with player := ⟨g.player.x, y1, g.player.shape⟩ } g.player.shape) := by
  obtain ⟨row, col, ch, ho⟩ := hocc
  obtain ⟨y1, hle, htrue, hfalse, hloop⟩ := hardDrop_aux g hg hb row col ch ho
    (19 - ((row : Int) + g.player.y)).toNat g.player.y (by omega)
  refine ⟨y1, (19 - ((row : Int) + g.player.y)).toNat + 1, hle, htrue, hfalse, ?_⟩
  intro fuel hf
  have h1 : hardDropLoop fuel g = some (setY g y1) := hloop fuel hf
  refine ⟨h1, ?_⟩
  simp only [keyUp, h1]
  rfl


theorem hardDrop_spec_witness :
    GridOK (gameAt 4 (-3) shapeO).grid ∧
    (∃ row col ch, Occupied (gameAt 4 (-3) shapeO).player.shape row col ch) ∧
    (∀ row col ch, Occupied (gameAt 4 (-3) shapeO).player.shape row col ch →
      0 ≤ (col : Int) + (gameAt 4 (-3) shapeO).player.x ∧
        (col : Int) + (gameAt 4 (-3) shapeO).player.x ≤ 9) ∧
    ∃ (y1 : Int) (n : Nat), (gameAt 4 (-3) shapeO).player.y ≤ y1 ∧
      collideShape (setY (gameAt 4 (-3) shapeO) (y1 + 1)) (gameAt 4 (-3) shapeO).player.shape
        = some true ∧
      (∀ y2, (gameAt 4 (-3) shapeO).player.y ≤ y2 → y2 < y1 →
        collideShape (setY (gameAt 4 (-3) shapeO) (y2 + 1)) (gameAt 4 (-3) shapeO).player.shape
          = some false) ∧
      (∀ fuel, n ≤ fuel →
        hardDropLoop fuel (gameAt 4 (-3) shapeO)
          = some { gameAt 4 (-3) shapeO with
                   player := ⟨(gameAt 4 (-3) shapeO).player.x, y1,
                     (gameAt 4 (-3) shapeO).player.shape⟩ } ∧
        keyUp fuel (gameAt 4 (-3) shapeO)
          = placeShape
              { gameAt 4 (-3) shapeO with
                player := ⟨(gameAt 4 (-3) shapeO).player.x, y1,
                  (gameAt 4 (-3) shapeO).player.shape⟩ }
              (gameAt 4 (-3) shapeO).player.shape) :=
  ⟨gridOK_gameAt _ _ _, ⟨1, 1, 52, rfl, by decide⟩, forall_occupied shapeO _ (by decide),
    hardDrop_spec (gameAt 4 (-3) shapeO) (gridOK_gameAt _ _ _) ⟨1, 1, 52, rfl, by decide⟩
      (forall_occupied shapeO _ (by decide))⟩

/-- C11: with `dropTime` the 600 ms of the constructor and `lineCount` below `2^31`,
`moveShape` sets `dropSpeed` to exactly `600 - 2 * lineCount`, which is strictly decreasing in
`lineCount`; when `dropClock` is strictly greater than that interval it resets `dropClock` to
zero and increases `player.y` by one, otherwise it leaves both unchanged; `player.x`, the
pattern and the grid are never changed, and the result does not depend on the grid (no
collision check). -/
theorem moveShape_spec (g : Game) (dropClock : Int) (h600 : g.dropTime = 600)
    (hlc : g.lineCount < 2147483648) :
    (moveShape g dropClock).1.dropSpeed = 600 - 2 * (g.lineCount : Int) ∧
    (∀ (g2 : Game) (dc2 : Int), g2.dropTime = 600 → g2.lineCount < 2147483648 →
      g.lineCount < g2.lineCount →
      (moveShape g2 dc2).1.dropSpeed < (moveShape g dropClock).1.dropSpeed) ∧
    (dropClock > 600 - 2 * (g.lineCount : Int) →
      (moveShape g dropClock).2 = 0 ∧ (moveShape g dropClock).1.player.y = g.player.y + 1) ∧
    (¬ dropClock > 600 - 2 * (g.lineCount : Int) →
      (moveShape g dropClock).2 = dropClock ∧ (moveShape g dropClock).1.player.y = g.player.y) ∧
    (moveShape g dropClock).1.player.x = g.player.x ∧
    (moveShape g dropClock).1.player.shape = g.player.shape ∧
    (moveShape g dropClock).1.grid = g.grid ∧
    (∀ grid1 : Grid, moveShape { g with grid := grid1 } dropClock
      = ({ (moveShape g dropClock).1 with grid := grid1 }, (moveShape g dropClock).2)) := by
  have hs : ∀ (g1 : Game) (dc : Int), g1.dropTime = 600 → g1.lineCount < 2147483648 →
      (moveShape g1 dc).1.dropSpeed = 600 - 2 * (g1.lineCount : Int) := by
    intro g1 dc h1 h2
    have hm : g1.lineCount * 2 % 4294967296 = g1.lineCount * 2 := Nat.mod_eq_of_lt (by omega)
    simp only [moveShape, hm, h1]
    split <;> simp <;> omega
  have hm : g.lineCount * 2 % 4294967296 = g.lineCount * 2 := Nat.mod_eq_of_lt (by omega)
  have he : g.dropTime - ((g.lineCount * 2 : Nat) : Int) = 600 - 2 * (g.lineCount : Int) := by
    rw [h600]
    omega
  refine ⟨hs g dropClock h600 hlc, ?_, ?_, ?_, ?_, ?_, ?_, ?_⟩
  · intro g2 dc2 h1 h2 hlt
    rw [hs g2 dc2 h1 h2, hs g dropClock h600 hlc]
    omega
  · intro hgt
    simp only [moveShape, hm, he, hgt, if_true, and_self]
  · intro hle
    simp only [moveShape, hm, he, hle, if_false, and_self]
  · simp only [moveShape]
    split <;> rfl
  · simp only [moveShape]
    split <;> rfl
  · simp only [moveShape]
    split <;> rfl
  · intro grid1
    simp only [moveShape]
    split <;> rfl

theorem moveShape_spec_witness :
    (newGame 0).dropTime = 600 ∧ (newGame 0).lineCount < 2147483648 ∧
    (moveShape (newGame 0) 601).1.dropSpeed = 600 - 2 * ((newGame 0).lineCount : Int) ∧
    (moveShape (newGame 0) 601).1.grid = (newGame 0).grid :=
  ⟨rfl, by decide, (moveShape_spec (newGame 0) 601 rfl (by decide)).1,
    (moveShape_spec (newGame 0) 601 rfl (by decide)).2.2.2.2.2.2.1⟩

/-- C12, counterexample: at `lineCount = 300` the gravity interval that `moveShape` computes
is zero, so it is not strictly positive. -/
theorem dropSpeed_zero_at_300 :
    (moveShape { newGame 0 with lineCount := 300 } 0).1.dropSpeed = 0 ∧
    ¬ 0 < (moveShape { newGame 0 with lineCount := 300 } 0).1.dropSpeed := by
  decide

/-- C13, the code at a restart: from a lost game with `lineCount = 5` and `runTime = 1000`,
the key `'r'` in the menu of `onGameOver` returns to the game with `lineCount` still 5 and
`runTime` still 1000, so the next gravity interval is 590 ms, not the 600 ms base; only the
counters, the grid and the piece are fresh. -/
theorem restart_keeps_stats :
    ∃ m, onGameOver lostGame false 6 [114] = some m ∧ m.gameover = false ∧
      m.game.lineCount = 5 ∧ m.game.runTime = 1000 ∧
      (moveShape m.game 0).1.dropSpeed = 590 ∧
      m.game.grid = List.replicate 20 zeroes ∧ m.game.player = ⟨4, -3, shapeO⟩ :=
  ⟨_, rfl, rfl, rfl, rfl, by decide, rfl, rfl⟩

/-- C20, the code at a restart: `aggr` has `shapes.size() = 7` entries, and the call
`fill_n(aggr.begin(), 8, 0)` of the restart branch makes 8 assignments, the last of them at
index 7, past the end of `aggr`; a count of 7 would stay inside. The 7 counters are zero
after it and the respawn sets the counter of the spawned kind to 1. -/
theorem restart_fill_overrun :
    shapes.length = 7 ∧ (newGame 0).aggr.length = 7 ∧ lostGame.aggr.length = 7 ∧
    fill_n lostGame.aggr 8 0 = ([0, 0, 0, 0, 0, 0, 0], [7]) ∧
    fill_n lostGame.aggr 7 0 = ([0, 0, 0, 0, 0, 0, 0], []) ∧
    ∃ m, onGameOver lostGame false 6 [114] = some m ∧ m.overrun = [7] ∧
      m.game.aggr = [0, 0, 0, 1, 0, 0, 0] := by
  refine ⟨rfl, rfl, rfl, by decide, by decide, _, rfl, rfl, rfl⟩

/-- C16, the code at the left wall: with the `I` pattern at `(0, 5)` on the empty playfield
`collideAll` is false; in the state of the tentative move left, `collideShape`, which
`collideAll` evaluates first, reads `grid[6][-1]`, a column index outside [0,9]; `collideGrid`,
which would reject that state, is not reached. -/
theorem collideShape_reads_out_of_range :
    collideAll (gameAt 0 5 shapeI) (gameAt 0 5 shapeI).player.shape = some false ∧
    collideShapeReads (setX (gameAt 0 5 shapeI) (0 - 1)) (cells shapeI) = [(6, -1)] ∧
    gridAt (gameAt 0 5 shapeI).grid 6 (-1) = none ∧
    collideAll (setX (gameAt 0 5 shapeI) (0 - 1)) shapeI = none ∧
    collideGrid (setX (gameAt 0 5 shapeI) (0 - 1)) shapeI = true := by
  decide

theorem specRotateCW_4x4 (a0 a1 a2 a3 b0 b1 b2 b3 c0 c1 c2 c3 d0 d1 d2 d3 : Nat) :
    specRotateCW [[a0, a1, a2, a3], [b0, b1, b2, b3], [c0, c1, c2, c3], [d0, d1, d2, d3]]
      = [[d0, c0, b0, a0], [d1, c1, b1, a1], [d2, c2, b2, a2], [d3, c3, b3, a3]] := by
  rfl

theorem specRotateCCW_4x4 (a0 a1 a2 a3 b0 b1 b2 b3 c0 c1 c2 c3 d0 d1 d2 d3 : Nat) :
    specRotateCCW [[a0, a1, a2, a3], [b0, b1, b2, b3], [c0, c1, c2, c3], [d0, d1, d2, d3]]
      = [[a3, b3, c3, d3], [a2, b2, c2, d2], [a1, b1, c1, d1], [a0, b0, c0, d0]] := by
  rfl

/-- C17: for every pattern of 4 rows of 4 cells, the in-place loops of `rotate(CW)` return
exactly the reference 'transpose, then reverse each row', whose cell `[r][c]` is the original
cell `[3 - c][r]`; and the loops of `rotate(CCW)` return exactly the reference 'reverse each
row, then transpose', whose cell `[r][c]` is the original cell `[c][3 - r]`. -/
theorem rotate_refines_spec (shape : Shape) (h : Is4x4 shape) :
    rotateShape shape .CW = some (specRotateCW shape) ∧
    (∀ r c, r < 4 → c < 4 → cellAt (specRotateCW shape) r c = cellAt shape (3 - c) r) ∧
    rotateShape shape .CCW = some (specRotateCCW shape) ∧
    (∀ r c, r < 4 → c < 4 → cellAt (specRotateCCW shape) r c = cellAt shape c (3 - r)) := by
  obtain ⟨a0, a1, a2, a3, b0, b1, b2, b3, c0, c1, c2, c3, d0, d1, d2, d3, hs⟩ := Is4x4.cases h
  subst hs
  rw [rotateShape_CW_4x4, rotateShape_CCW_4x4, specRotateCW_4x4, specRotateCCW_4x4]
  refine ⟨rfl, ?_, rfl, ?_⟩
  · intro r c hr hc
    interval_cases r <;> interval_cases c <;> rfl
  · intro r c hr hc
    interval_cases r <;> interval_cases c <;> rfl

theorem rotate_refines_spec_witness :
    Is4x4 shapeI ∧ rotateShape shapeI .CW = some (specRotateCW shapeI) ∧
    rotateShape shapeI .CCW = some (specRotateCCW shapeI) :=
  ⟨⟨rfl, by decide⟩, (rotate_refines_spec shapeI ⟨rfl, by decide⟩).1,
    (rotate_refines_spec shapeI ⟨rfl, by decide⟩).2.2.1⟩

theorem cellsFrom_sorted (shape : Shape) : ∀ n : Nat,
    ((shape.enumFrom n).flatMap
        (fun rl => rl.2.enum.map (fun cc => (rl.1, cc.1, cc.2)))).Pairwise
      (fun a b : Nat × Nat × Nat => a.1 ≤ b.1) ∧
    ∀ a ∈ (shape.enumFrom n).flatMap
        (fun rl => rl.2.enum.map (fun cc => (rl.1, cc.1, cc.2))), n ≤ a.1 := by
  induction shape with
  | nil => intro n; simp
  | cons ln rest ih =>
    intro n
    obtain ⟨hp, hge⟩ := ih (n + 1)
    simp only [List.enumFrom_cons, List.flatMap_cons]
    have hhead : ∀ a ∈ ln.enum.map (fun cc : Nat × Nat => ((n, cc.1, cc.2) : Nat × Nat × Nat)),
        a.1 = n := by
      intro a ha
      obtain ⟨cc, _, rfl⟩ := List.mem_map.mp ha
      rfl
    constructor
    · rw [List.pairwise_append]
      refine ⟨?_, hp, ?_⟩
      · rw [List.pairwise_iff_forall_sublist]
        intro a b hab
        have ha := hhead a (hab.subset (by simp))
        have hb := hhead b (hab.subset (by simp))
        omega
      · intro a ha b hb
        have h1 := hhead a ha
        have h2 := hge b hb
        omega
    · intro a ha
      rcases List.mem_append.mp ha with h | h
      · have := hhead a h
        omega
      · have := hge a h
        omega

theorem cells_sorted (shape : Shape) :
    (cells shape).Pairwise (fun a b : Nat × Nat × Nat => a.1 ≤ b.1) :=
  (cellsFrom_sorted shape 0).1

theorem placeScan_not_over (cs : List (Nat × Nat × Nat)) :
    ∀ g : Game, (∀ cell ∈ cs, cell.2.2 > 48 → 0 ≤ (cell.1 : Int) + g.player.y) →
      ∀ p, placeScan g cs = some p → p.over = false := by
  induction cs with
  | nil =>
    intro g _ p hp
    simp only [placeScan, Option.some.injEq] at hp
    subst hp
    rfl
  | cons cell rest ih =>
    obtain ⟨row, col, ch⟩ := cell
    intro g hall p hp
    have hrest : ∀ cell ∈ rest, cell.2.2 > 48 → 0 ≤ (cell.1 : Int) + g.player.y :=
      fun cell hm => hall cell (List.mem_cons_of_mem _ hm)
    simp only [placeScan] at hp
    by_cases hch : ch > 48
    · have h0 : ¬ (row : Int) + g.player.y < 0 := by
        have := hall (row, col, ch) (List.mem_cons_self _ _) hch
        simp only at this
        omega
      simp only [hch, h0, if_true, if_false] at hp
      cases hs : gridSet g.grid ((row : Int) + g.player.y) ((col : Int) + g.player.x) ch with
      | none => simp [hs] at hp
      | some grid1 =>
        simp only [hs] at hp
        exact ih { g with grid := grid1 } hrest p hp
    · simp only [hch, if_false] at hp
      exact ih g hrest p hp

theorem placeScan_over_of_exists (cs : List (Nat × Nat × Nat)) (g : Game)
    (hs : cs.Pairwise (fun a b : Nat × Nat × Nat => a.1 ≤ b.1))
    (hex : ∃ cell ∈ cs, cell.2.2 > 48 ∧ (cell.1 : Int) + g.player.y < 0) :
    placeScan g cs = some (.gameOver g) := by
  induction cs with
  | nil =>
    obtain ⟨cell, hm, _⟩ := hex
    simp at hm
  | cons cell rest ih =>
    obtain ⟨row, col, ch⟩ := cell
    obtain ⟨hhead, hrest⟩ := List.pairwise_cons.mp hs
    simp only [placeScan]
    by_cases hch : ch > 48
    · by_cases hr : (row : Int) + g.player.y < 0
      · simp only [hch, hr, if_true]
      · exfalso
        obtain ⟨c1, hm, hc48, hneg⟩ := hex
        rcases List.mem_cons.mp hm with he | hm1
        · subst he
          exact hr hneg
        · have := hhead c1 hm1
          simp only at this
          omega
    · simp only [hch, if_false]
      apply ih hrest
      obtain ⟨c1, hm, hc48, hneg⟩ := hex
      rcases List.mem_cons.mp hm with he | hm1
      · subst he
        exact absurd hc48 hch
      · exact ⟨c1, hm1, hc48, hneg⟩

theorem placeShape_gameOver_cases (g : Game) (shape : Shape) :
    ((∃ row col ch, Occupied shape row col ch ∧ (row : Int) + g.player.y < 0) →
      placeShape g shape = some (.gameOver g)) ∧
    ((¬ ∃ row col ch, Occupied shape row col ch ∧ (row : Int) + g.player.y < 0) →
      ∀ p, placeShape g shape = some p → p.over = false) := by
  constructor
  · rintro ⟨row, col, ch, ho, hr⟩
    exact placeScan_over_of_exists (cells shape) g (cells_sorted shape)
      ⟨(row, col, ch), (mem_cells shape row col ch).mpr ho.1, ho.2, hr⟩
  · intro hno p hp
    refine placeScan_not_over (cells shape) g ?_ p hp
    rintro ⟨row, col, ch⟩ hm hch
    by_contra hneg
    exact hno ⟨row, col, ch, ⟨(mem_cells shape row col ch).mp hm, hch⟩, by
      simp only at hneg
      omega⟩

/-- C18: for every grid, pattern and position, if `placeShape` signals game-over then the
state it passes on to `onGameOver` is the state before the call, the grid included: no cell
has been written; and it does signal game-over, having written nothing, whenever some
occupied pattern cell maps to a world row below 0, and only then. -/
theorem placeShape_gameOver_atomic (g : Game) (shape : Shape) :
    (∀ g1, placeShape g shape = some (.gameOver g1) → g1 = g ∧ g1.grid = g.grid) ∧
    ((∃ row col ch, Occupied shape row col ch ∧ (row : Int) + g.player.y < 0) →
      placeShape g shape = some (.gameOver g)) ∧
    ((∃ g1, placeShape g shape = some (.gameOver g1)) →
      ∃ row col ch, Occupied shape row col ch ∧ (row : Int) + g.player.y < 0) := by
  obtain ⟨hyes, hno⟩ := placeShape_gameOver_cases g shape
  have hex : ∀ g1, placeShape g shape = some (.gameOver g1) →
      ∃ row col ch, Occupied shape row col ch ∧ (row : Int) + g.player.y < 0 := by
    intro g1 h1
    by_contra hnone
    have := hno hnone _ h1
    simp [Placed.over] at this
  refine ⟨?_, hyes, fun ⟨g1, h1⟩ => hex g1 h1⟩
  intro g1 h1
  have h2 := hyes (hex g1 h1)
  rw [h1] at h2
  simp only [Option.some.injEq, Placed.gameOver.injEq] at h2
  subst h2
  exact ⟨rfl, rfl⟩

theorem placeShape_gameOver_atomic_witness :
    placeShape (gameAt 4 (-2) shapeO) shapeO = some (.gameOver (gameAt 4 (-2) shapeO)) :=
  (placeShape_gameOver_atomic (gameAt 4 (-2) shapeO) shapeO).2.1
    ⟨1, 1, 52, ⟨rfl, by decide⟩, by decide⟩

/-- C14, counterexample: the `O` pattern of the catalog, in its spawn orientation, locked
by `placeShape` at `player.y = -1` on the empty playfield is placed (rows 0 and 1) and no
game-over is signalled. -/
theorem placeShape_O_at_minus_one_locks :
    shapes[3]? = some shapeO ∧ (gameAt 4 (-1) shapeO).player.y = -1 ∧
    (placeShape (gameAt 4 (-1) shapeO) shapeO).map Placed.over = some false ∧
    ¬ ∃ g1, placeShape (gameAt 4 (-1) shapeO) shapeO = some (.gameOver g1) := by
  refine ⟨rfl, rfl, by decide, ?_⟩
  rintro ⟨g1, h⟩
  have h2 : (placeShape (gameAt 4 (-1) shapeO) shapeO).map Placed.over = some false := by decide
  rw [h] at h2
  simp [Placed.over] at h2

theorem catalog_rows : ∀ kind ∈ shapes, ∀ cell ∈ cells kind, cell.2.2 > 48 →
    1 ≤ cell.1 ∧ cell.1 ≤ 2 ∧ cell.2.1 ≤ 3 := by
  decide

/-- C14, amended: locking a pattern with `placeShape` at `player.y = -1` signals game-over
(having written nothing) if and only if the pattern has an occupied cell in its row 0, the
only pattern row that maps to a world row below 0; each of the 7 catalog patterns in its
spawn orientation has an empty row 0, so locking it at `y = -1` never signals game-over, and
at the spawn column on a playfield of 20 rows of 10 cells it is placed. -/
theorem placeShape_at_minus_one (g : Game) (shape : Shape) (hy : g.player.y = -1) :
    (placeShape g shape = some (.gameOver g) ↔ ∃ col ch, Occupied shape 0 col ch) ∧
    ((¬ ∃ col ch, Occupied shape 0 col ch) →
      ∀ p, placeShape g shape = some p → p.over = false) ∧
    (shape ∈ shapes → ¬ ∃ col ch, Occupied shape 0 col ch) ∧
    (shape ∈ shapes → GridOK g.grid → g.player.x = 4 →
      ∃ g1, placeShape g shape = some (.locked g1)) := by
  obtain ⟨hyes, hno⟩ := placeShape_gameOver_cases g shape
  have hrow0 : (∃ row col ch, Occupied shape row col ch ∧ (row : Int) + g.player.y < 0) ↔
      ∃ col ch, Occupied shape 0 col ch := by
    rw [hy]
    constructor
    · rintro ⟨row, col, ch, ho, hr⟩
      have : row = 0 := by omega
      subst this
      exact ⟨col, ch, ho⟩
    · rintro ⟨col, ch, ho⟩
      exact ⟨0, col, ch, ho, by decide⟩
  have hcat : shape ∈ shapes → ¬ ∃ col ch, Occupied shape 0 col ch := by
    rintro hk ⟨col, ch, ho⟩
    have := catalog_rows shape hk (0, col, ch) ((mem_cells shape 0 col ch).mpr ho.1) ho.2
    simp at this
  refine ⟨⟨?_, fun h => hyes (hrow0.mpr h)⟩, fun h => hno (fun hex => h (hrow0.mp hex)),
    hcat, ?_⟩
  · intro h
    by_contra hnone
    have := hno (fun hex => hnone (hrow0.mp hex)) _ h
    simp [Placed.over] at this
  · intro hk hg hx
    obtain ⟨grid1, hp, _⟩ := placeShape_frame g shape hg (by
      intro row col ch ho
      have := catalog_rows shape hk (row, col, ch) ((mem_cells shape row col ch).mpr ho.1) ho.2
      simp only at this
      rw [hy, hx]
      omega)
    exact ⟨_, hp⟩

theorem placeShape_at_minus_one_witness :
    (gameAt 4 (-1) shapeO).player.y = -1 ∧
    (shapeO ∈ shapes → GridOK (gameAt 4 (-1) shapeO).grid → (gameAt 4 (-1) shapeO).player.x = 4 →
      ∃ g1, placeShape (gameAt 4 (-1) shapeO) shapeO = some (.locked g1)) :=
  ⟨rfl, (placeShape_at_minus_one (gameAt 4 (-1) shapeO) shapeO rfl).2.2.2⟩

/-- C19, counterexample: `grid[0][5]` holds `'1'`; with the `O` pattern at `(4, -1)` both
`collideShape` and `collideGrid` are false and every occupied pattern cell maps to a world row
`≥ 0`, yet `placeShape` writes `'4'` over the `'1'` of `grid[0][5]`: row 0 is exempt from the
test of `collideShape`. -/
theorem placeShape_overwrites_row_zero :
    GridOK coveredGame.grid ∧
    collideShape coveredGame shapeO = some false ∧ collideGrid coveredGame shapeO = false ∧
    (∀ cell ∈ cells shapeO, cell.2.2 > 48 → 0 ≤ (cell.1 : Int) + coveredGame.player.y) ∧
    gridAt coveredGame.grid 0 5 = some 49 ∧
    (placeShape coveredGame shapeO).map (fun p => (p.over, gridAt p.game.grid 0 5))
      = some (false, some 52) := by
  refine ⟨⟨rfl, by decide⟩, by decide, by decide, by decide, by decide, by decide⟩

/-- C19, amended: on a playfield of 20 rows of 10 cells, for every pattern and position such
that `collideShape` and `collideGrid` are both false and every occupied pattern cell maps to a
world row `≥ 0`, `placeShape` runs to its end, every grid cell of a row `≥ 1` that it writes
was empty before the call (`'0'` when the grid holds codes `'0' .. '7'`), and every
non-empty cell of a row `≥ 1` keeps its code. -/
theorem placeShape_keeps_locked (g : Game) (shape : Shape) (hg : GridOK g.grid)
    (hcs : collideShape g shape = some false) (hcg : collideGrid g shape = false)
    (hrow : ∀ row col ch, Occupied shape row col ch → 0 ≤ (row : Int) + g.player.y) :
    ∃ g1, placeShape g shape = some (.locked g1) ∧
      (∀ row col ch, Occupied shape row col ch → 1 ≤ (row : Int) + g.player.y →
        ∃ v, gridAt g.grid ((row : Int) + g.player.y) ((col : Int) + g.player.x) = some v ∧
          ¬ v > 48 ∧ (CodesOK g.grid → v = 48)) ∧
      (∀ (R C : Int) (v : Nat), 1 ≤ R → gridAt g.grid R C = some v → v > 48 →
        gridAt g1.grid R C = some v) := by
  have hb : ∀ row col ch, Occupied shape row col ch →
      0 ≤ (row : Int) + g.player.y ∧ (row : Int) + g.player.y ≤ 19 ∧
        0 ≤ (col : Int) + g.player.x ∧ (col : Int) + g.player.x ≤ 9 := by
    intro row col ch ho
    have hm := (mem_cells shape row col ch).mpr ho.1
    have hnot : ¬ collideGrid g shape = true := by simp [hcg]
    simp only [collideGrid, List.any_eq_true, not_exists, not_and] at hnot
    have := hnot (row, col, ch) hm
    simp only [Bool.and_eq_true, Bool.or_eq_true, decide_eq_true_eq, not_and, not_or] at this
    have h2 := this ho.2
    have h0 := hrow row col ch ho
    omega
  obtain ⟨b, hsc, hiff⟩ := collideShapeScan_spec g hg (cells shape)
    (fun row col ch hm hch =>
      have h := hb row col ch ⟨(mem_cells shape row col ch).mp hm, hch⟩
      ⟨h.2.2.1, h.2.2.2⟩)
  have hbf : b = false := by
    have : collideShapeScan g (cells shape) = some false := hcs
    rw [hsc] at this
    exact Option.some.inj this
  subst hbf
  have hempty : ∀ row col ch, Occupied shape row col ch → 1 ≤ (row : Int) + g.player.y →
      ∃ v, gridAt g.grid ((row : Int) + g.player.y) ((col : Int) + g.player.x) = some v ∧
        ¬ v > 48 := by
    intro row col ch ho h1
    have hbo := hb row col ch ho
    obtain ⟨v, hv⟩ := gridAt_some g.grid hg ((row : Int) + g.player.y)
      ((col : Int) + g.player.x) ⟨hbo.1, hbo.2.1⟩ hbo.2.2
    refine ⟨v, hv, fun hv48 => ?_⟩
    have : false = true := hiff.mpr ⟨row, col, ch, (mem_cells shape row col ch).mpr ho.1, ho.2,
      Or.inr ⟨by omega, hbo.2.1, v, hv, hv48⟩⟩
    cases this
  obtain ⟨grid1, hp, _, hwr, hfr⟩ := placeShape_frame g shape hg hb
  refine ⟨{ g with grid := grid1 }, hp, ?_, ?_⟩
  · intro row col ch ho h1
    obtain ⟨v, hv, hnv⟩ := hempty row col ch ho h1
    refine ⟨v, hv, hnv, fun hcodes => ?_⟩
    simp only [gridAt] at hv
    split at hv
    · obtain ⟨ln, hln, hc⟩ := cellAt_mem _ _ _ _ hv
      have := hcodes ln hln v hc
      omega
    · cases hv
  · intro R C v hR hv hv48
    show gridAt grid1 R C = some v
    rw [hfr R C, hv]
    rintro ⟨row, col, ch, ho, h1, h2⟩
    obtain ⟨v1, hv1, hnv1⟩ := hempty row col ch ho (by omega)
    rw [h1, h2, hv] at hv1
    have : v = v1 := Option.some.inj hv1
    subst this
    exact hnv1 hv48

theorem rotatePlayer_CW_4x4 (ag : List Nat) (nx : Nat) (ds dt rt : Int) (lc : Nat) (grid : Grid)
    (x y : Int) (a0 a1 a2 a3 b0 b1 b2 b3 c0 c1 c2 c3 d0 d1 d2 d3 : Nat) :
    rotatePlayer ⟨ag, nx, ds, dt, rt, lc, grid,
        ⟨x, y, [[a0, a1, a2, a3], [b0, b1, b2, b3], [c0, c1, c2, c3], [d0, d1, d2, d3]]⟩⟩ .CW
      = some ⟨ag, nx, ds, dt, rt, lc, grid,
        ⟨x, y, [[d0, c0, b0, a0], [d1, c1, b1, a1], [d2, c2, b2, a2], [d3, c3, b3, a3]]⟩⟩ := by
  unfold rotatePlayer
  rw [Player.rotate_CW_4x4]

theorem rotatePlayer_CCW_4x4 (ag : List Nat) (nx : Nat) (ds dt rt : Int) (lc : Nat)
    (grid : Grid) (x y : Int) (a0 a1 a2 a3 b0 b1 b2 b3 c0 c1 c2 c3 d0 d1 d2 d3 : Nat) :
    rotatePlayer ⟨ag, nx, ds, dt, rt, lc, grid,
        ⟨x, y, [[a0, a1, a2, a3], [b0, b1, b2, b3], [c0, c1, c2, c3], [d0, d1, d2, d3]]⟩⟩ .CCW
      = some ⟨ag, nx, ds, dt, rt, lc, grid,
        ⟨x, y, [[a3, b3, c3, d3], [a2, b2, c2, d2], [a1, b1, c1, d1], [a0, b0, c0, d0]]⟩⟩ := by
  unfold rotatePlayer
  rw [Player.rotate_CCW_4x4]

theorem clearLines_spec_witness :
    GridOK stackGame.grid ∧
    ((clearLines stackGame).1
        = stackGame.grid.countP (fun ln => ln.all (fun c => decide (c > 48))) ∧
      (clearLines stackGame).1 = (cleared stackGame.grid).length ∧
      (cleared stackGame.grid).Pairwise (· < ·) ∧
      (∀ row, row ∈ cleared stackGame.grid ↔
        ∃ ln, stackGame.grid[row]? = some ln ∧ ∀ c ∈ ln, c > 48) ∧
      (clearLines stackGame).2 =
        { stackGame with
          grid := List.replicate (clearLines stackGame).1 (List.replicate 10 48) ++
                    stackGame.grid.filter (fun ln => !ln.all (fun c => decide (c > 48))) } ∧
      GridOK (clearLines stackGame).2.grid ∧
      (∀ ln ∈ (clearLines stackGame).2.grid, ¬ ∀ c ∈ ln, c > 48)) ∧
    (clearLines stackGame).1 = 1 ∧ cleared stackGame.grid = [19] ∧
    (clearLines stackGame).2.grid =
      List.replicate 18 zeroes ++
        [[51, 48, 48, 48, 48, 48, 48, 48, 48, 48], [50, 50, 50, 50, 50, 48, 48, 50, 50, 50]] := by
  have hG : GridOK stackGame.grid := ⟨rfl, by decide⟩
  have h := clearLines_spec stackGame hG
  have h1 : (clearLines stackGame).1 = 1 := h.1.trans (by decide)
  refine ⟨hG, h, h1, by decide, ?_⟩
  have h5 := congrArg Game.grid h.2.2.2.2.1
  rw [h1] at h5
  rw [h5]
  decide

/-- C12, amended: with `dropTime` the 600 ms of the constructor and `lineCount` below `2^31`,
the gravity interval `dropSpeed` that `moveShape` computes is `600 - 2 * lineCount`: strictly
positive exactly when `lineCount` is below 300, zero exactly at 300, and negative exactly
above 300. -/
theorem dropSpeed_pos_iff (g : Game) (dropClock : Int) (h600 : g.dropTime = 600)
    (hlc : g.lineCount < 2147483648) :
    (moveShape g dropClock).1.dropSpeed = 600 - 2 * (g.lineCount : Int) ∧
    (0 < (moveShape g dropClock).1.dropSpeed ↔ g.lineCount < 300) ∧
    ((moveShape g dropClock).1.dropSpeed = 0 ↔ g.lineCount = 300) ∧
    ((moveShape g dropClock).1.dropSpeed < 0 ↔ 300 < g.lineCount) := by
  have hm : g.lineCount * 2 % 4294967296 = g.lineCount * 2 := Nat.mod_eq_of_lt (by omega)
  have hd : (moveShape g dropClock).1.dropSpeed = 600 - 2 * (g.lineCount : Int) := by
    simp only [moveShape, hm, h600]
    split <;> simp <;> omega
  rw [hd]
  refine ⟨rfl, ?_, ?_, ?_⟩ <;> omega

theorem dropSpeed_pos_iff_witness :
    ({ newGame 0 with lineCount := 301 } : Game).dropTime = 600 ∧
    ({ newGame 0 with lineCount := 301 } : Game).lineCount < 2147483648 ∧
    (moveShape { newGame 0 with lineCount := 301 } 0).1.dropSpeed = 600 - 2 * ((301 : Nat) : Int) ∧
    (moveShape { newGame 0 with lineCount := 301 } 0).1.dropSpeed < 0 ∧
    ¬ 0 < (moveShape { newGame 0 with lineCount := 301 } 0).1.dropSpeed :=
  ⟨rfl, by decide,
    (dropSpeed_pos_iff { newGame 0 with lineCount := 301 } 0 rfl (by decide)).1,
    (dropSpeed_pos_iff { newGame 0 with lineCount := 301 } 0 rfl (by decide)).2.2.2.mpr
      (by decide),
    fun h => absurd
      ((dropSpeed_pos_iff { newGame 0 with lineCount := 301 } 0 rfl (by decide)).2.1.mp h)
      (by decide)⟩

theorem placeShape_keeps_locked_witness :
    GridOK stackGame.grid ∧
    collideShape stackGame shapeO = some false ∧
    collideGrid stackGame shapeO = false ∧
    (∀ row col ch, Occupied shapeO row col ch → 0 ≤ (row : Int) + stackGame.player.y) ∧
    (∃ g1, placeShape stackGame shapeO = some (.locked g1) ∧
      (∀ row col ch, Occupied shapeO row col ch → 1 ≤ (row : Int) + stackGame.player.y →
        ∃ v, gridAt stackGame.grid ((row : Int) + stackGame.player.y)
            ((col : Int) + stackGame.player.x) = some v ∧
          ¬ v > 48 ∧ (CodesOK stackGame.grid → v = 48)) ∧
      (∀ (R C : Int) (v : Nat), 1 ≤ R → gridAt stackGame.grid R C = some v → v > 48 →
        gridAt g1.grid R C = some v)) ∧
    gridAt stackGame.grid 18 4 = some 50 ∧ gridAt stackGame.grid 19 5 = some 49 ∧
    (∃ g1, placeShape stackGame shapeO = some (.locked g1) ∧
      gridAt g1.grid 18 4 = some 50 ∧ gridAt g1.grid 19 5 = some 49 ∧
      gridAt g1.grid 18 5 = some 52) := by
  have hG : GridOK stackGame.grid := ⟨rfl, by decide⟩
  have h := placeShape_keeps_locked stackGame shapeO hG (by decide) (by decide)
    (forall_occupied shapeO _ (by decide))
  refine ⟨hG, by decide, by decide, forall_occupied shapeO _ (by decide), h, by decide,
    by decide, ?_⟩
  obtain ⟨g1, hp, _, hkeep⟩ := h
  refine ⟨g1, hp, hkeep 18 4 50 (by decide) (by decide) (by decide),
    hkeep 19 5 49 (by decide) (by decide) (by decide), ?_⟩
  have h2 : (placeShape stackGame shapeO).map (fun p => gridAt p.game.grid 18 5)
      = some (some 52) := by decide
  rw [hp] at h2
  exact Option.some.inj h2

theorem collideShapeScanWith_of_some (oob : Int → Int → Nat) (g : Game)
    (cs : List (Nat × Nat × Nat)) :
    ∀ b, collideShapeScan g cs = some b → collideShapeScanWith oob g cs = b := by
  induction cs with
  | nil =>
    intro b h
    simp only [collideShapeScan, Option.some.injEq] at h
    simp only [collideShapeScanWith, h]
  | cons cell rest ih =>
    obtain ⟨row, col, ch⟩ := cell
    intro b h
    simp only [collideShapeScan] at h
    simp only [collideShapeScanWith]
    by_cases hch : ch > 48
    · by_cases h19 : (row : Int) + g.player.y > 19
      · simp only [hch, h19, if_true, Option.some.injEq] at h
        simp only [hch, h19, if_true, h]
      · by_cases h0 : (row : Int) + g.player.y > 0
        · simp only [hch, h19, h0, if_true, if_false] at h
          simp only [hch, h19, h0, if_true, if_false]
          by_cases hnone :
              gridAt g.grid ((row : Int) + g.player.y) ((col : Int) + g.player.x) = none
          · rw [hnone] at h
            cases h
          · obtain ⟨v, hv⟩ := Option.ne_none_iff_exists.mp hnone
            have hr : gridRead oob g.grid ((row : Int) + g.player.y)
                ((col : Int) + g.player.x) = v := by
              simp only [gridRead, ← hv]
            rw [← hv] at h
            rw [hr]
            by_cases hv48 : v > 48
            · simp only [hv48, if_true, Option.some.injEq] at h
              simp only [hv48, if_true, h]
            · simp only [hv48, if_false] at h
              simp only [hv48, if_false]
              exact ih b h
        · simp only [hch, h19, h0, if_true, if_false] at h
          simp only [hch, h19, h0, if_true, if_false]
          exact ih b h
    · simp only [hch, if_false] at h
      simp only [hch, if_false]
      exact ih b h

theorem collideAll_of_with (oob : Int → Int → Nat) (g : Game) (hg : GridOK g.grid)
    (hc : collideAllWith oob g g.player.shape = false) :
    collideAll g g.player.shape = some false := by
  simp only [collideAllWith, Bool.or_eq_false_iff] at hc
  obtain ⟨hsw, hcg⟩ := hc
  have hcols : ∀ row col ch, (row, col, ch) ∈ cells g.player.shape → ch > 48 →
      0 ≤ (col : Int) + g.player.x ∧ (col : Int) + g.player.x ≤ 9 := by
    intro row col ch hm hch
    have hnot : ¬ collideGrid g g.player.shape = true := by simp [hcg]
    simp only [collideGrid, List.any_eq_true, not_exists, not_and] at hnot
    have := hnot (row, col, ch) hm
    simp only [Bool.and_eq_true, Bool.or_eq_true, decide_eq_true_eq, not_and, not_or] at this
    have h2 := this hch
    omega
  obtain ⟨b, hb, _⟩ := collideShapeScan_spec g hg (cells g.player.shape) hcols
  have hbf : b = false := by
    rw [← collideShapeScanWith_of_some oob g _ b hb]
    exact hsw
  subst hbf
  have hcs : collideShape g g.player.shape = some false := hb
  simp only [collideAll, hcs, hcg]

theorem undo_outcome (oob : Int → Int → Nat) (g t u g1 : Game) (hg : GridOK g.grid)
    (hc : collideAllWith oob g g.player.shape = false) (hu : u = g) (htg : t.grid = g.grid)
    (h : g1 = if collideAllWith oob t t.player.shape then u else t) :
    collideAllWith oob g1 g1.player.shape = false ∧
    collideAll g1 g1.player.shape = some false ∧
    g1.grid = g.grid ∧ t.grid = g.grid ∧
    (collideAllWith oob t t.player.shape = true → g1 = g) ∧
    (collideAllWith oob t t.player.shape = false → g1 = t) := by
  subst hu
  cases hct : collideAllWith oob t t.player.shape with
  | true =>
    simp only [hct, if_true] at h
    subst h
    exact ⟨hc, collideAll_of_with oob g1 hg hc, rfl, htg, fun _ => rfl, fun hf => by cases hf⟩
  | false =>
    simp only [hct, Bool.false_eq_true, if_false] at h
    subst h
    exact ⟨hct, collideAll_of_with oob g1 (htg ▸ hg) hct, htg, htg, (fun hf => by cases hf),
      fun _ => rfl⟩

theorem keyRotate_outcome (oob : Int → Int → Nat) (g : Game) (h4 : Is4x4 g.player.shape)
    (dir back : Direction) (hdir : (dir = .CW ∧ back = .CCW) ∨ (dir = .CCW ∧ back = .CW)) :
    ∃ t, rotatePlayer g dir = some t ∧ t.grid = g.grid ∧
      keyRotate oob dir back g = some (if collideAllWith oob t t.player.shape then g else t) := by
  obtain ⟨ag, nx, ds, dt, rt, lc, grid, ⟨x, y, shape⟩⟩ := g
  obtain ⟨a0, a1, a2, a3, b0, b1, b2, b3, c0, c1, c2, c3, d0, d1, d2, d3, hs⟩ := Is4x4.cases h4
  simp only [] at hs
  subst hs
  unfold keyRotate
  rcases hdir with ⟨rfl, rfl⟩ | ⟨rfl, rfl⟩
  · rw [rotatePlayer_CW_4x4]
    refine ⟨_, rfl, rfl, ?_⟩
    simp only []
    split
    · rw [rotatePlayer_CCW_4x4]
    · rfl
  · rw [rotatePlayer_CCW_4x4]
    refine ⟨_, rfl, rfl, ?_⟩
    simp only []
    split
    · rw [rotatePlayer_CW_4x4]
    · rfl

/-- C15: on every playfield of 20 rows of 10 cells and every player state with a pattern of
4 rows of 4 cells in which `collideAll` is false, whatever bytes the reads out of range
return, each of the five handlers (move left, move right, soft drop, rotate CCW, rotate CW)
makes its tentative change `t` and ends in a state in which `collideAll` is again false
(and there reads the grid in range only); when the tentative state collides the end state is
exactly the state before the key, `player.x`, `player.y` and the pattern included, otherwise
it is the tentative state; the grid is never modified. -/
theorem handlers_undo_on_collision (oob : Int → Int → Nat) (g : Game) (hg : GridOK g.grid)
    (h4 : Is4x4 g.player.shape) (hc : collideAllWith oob g g.player.shape = false) :
    ∀ th ∈ ([(fun s => some (setX s (s.player.x - 1)), fun s => some (keyLeft oob s)),
             (fun s => some (setX s (s.player.x + 1)), fun s => some (keyRight oob s)),
             (fun s => some (descend s), fun s => some (keyDown oob s)),
             (fun s => rotatePlayer s .CCW, keyR oob),
             (fun s => rotatePlayer s .CW, keySpace oob)] :
            List ((Game → Option Game) × (Game → Option Game))),
      ∃ t g1, th.1 g = some t ∧ th.2 g = some g1 ∧
        collideAllWith oob g1 g1.player.shape = false ∧
        collideAll g1 g1.player.shape = some false ∧
        g1.grid = g.grid ∧ t.grid = g.grid ∧
        (collideAllWith oob t t.player.shape = true → g1 = g) ∧
        (collideAllWith oob t t.player.shape = false → g1 = t) := by
  intro th hm
  simp only [List.mem_cons, List.mem_singleton, List.not_mem_nil, or_false] at hm
  rcases hm with rfl | rfl | rfl | rfl | rfl
  · exact ⟨_, _, rfl, rfl, undo_outcome oob g (setX g (g.player.x - 1))
      (setX (setX g (g.player.x - 1)) ((setX g (g.player.x - 1)).player.x + 1)) _ hg hc
      (by simp [setX]) rfl rfl⟩
  · exact ⟨_, _, rfl, rfl, undo_outcome oob g (setX g (g.player.x + 1))
      (setX (setX g (g.player.x + 1)) ((setX g (g.player.x + 1)).player.x - 1)) _ hg hc
      (by simp [setX]) rfl rfl⟩
  · exact ⟨_, _, rfl, rfl, undo_outcome oob g (descend g) (ascend (descend g)) _ hg hc
      (by simp [ascend, descend]) rfl rfl⟩
  · obtain ⟨t, ht, htg, hk⟩ := keyRotate_outcome oob g h4 .CCW .CW (Or.inr ⟨rfl, rfl⟩)
    exact ⟨t, _, ht, hk, undo_outcome oob g t g _ hg hc rfl htg rfl⟩
  · obtain ⟨t, ht, htg, hk⟩ := keyRotate_outcome oob g h4 .CW .CCW (Or.inl ⟨rfl, rfl⟩)
    exact ⟨t, _, ht, hk, undo_outcome oob g t g _ hg hc rfl htg rfl⟩

theorem handlers_undo_on_collision_witness :
    GridOK (gameAt 0 5 shapeI).grid ∧ Is4x4 (gameAt 0 5 shapeI).player.shape ∧
    collideAllWith (fun _ _ => 0) (gameAt 0 5 shapeI) (gameAt 0 5 shapeI).player.shape = false ∧
    gridAt (gameAt 0 5 shapeI).grid 6 (-1) = none ∧
    collideAllWith (fun _ _ => 0) (setX (gameAt 0 5 shapeI) ((gameAt 0 5 shapeI).player.x - 1))
      (setX (gameAt 0 5 shapeI) ((gameAt 0 5 shapeI).player.x - 1)).player.shape = true ∧
    keyLeft (fun _ _ => 0) (gameAt 0 5 shapeI) = gameAt 0 5 shapeI ∧
    keyRight (fun _ _ => 0) (gameAt 0 5 shapeI) = setX (gameAt 0 5 shapeI) 1 ∧
    collideAll (keyRight (fun _ _ => 0) (gameAt 0 5 shapeI))
      (keyRight (fun _ _ => 0) (gameAt 0 5 shapeI)).player.shape = some false := by
  have hG : GridOK (gameAt 0 5 shapeI).grid := gridOK_gameAt _ _ _
  have h4 : Is4x4 (gameAt 0 5 shapeI).player.shape := ⟨rfl, by decide⟩
  have hc : collideAllWith (fun _ _ => 0) (gameAt 0 5 shapeI)
      (gameAt 0 5 shapeI).player.shape = false := by decide
  have h := handlers_undo_on_collision (fun _ _ => 0) (gameAt 0 5 shapeI) hG h4 hc
  have hcl : collideAllWith (fun _ _ => 0)
      (setX (gameAt 0 5 shapeI) ((gameAt 0 5 shapeI).player.x - 1))
      (setX (gameAt 0 5 shapeI) ((gameAt 0 5 shapeI).player.x - 1)).player.shape = true := by
    decide
  refine ⟨hG, h4, hc, by decide, hcl, ?_, ?_, ?_⟩
  · obtain ⟨t, g1, ht, hk, _, _, _, _, hrev, _⟩ := h _ (List.mem_cons_self _ _)
    simp only [Option.some.injEq] at ht hk
    subst ht
    rw [hk]
    exact hrev hcl
  · obtain ⟨t, g1, ht, hk, _, _, _, _, _, hgo⟩ :=
      h _ (List.mem_cons_of_mem _ (List.mem_cons_self _ _))
    simp only [Option.some.injEq] at ht hk
    subst ht
    rw [hk]
    exact hgo (by decide)
  · obtain ⟨t, g1, ht, hk, _, hlegal, _⟩ :=
      h _ (List.mem_cons_of_mem _ (List.mem_cons_self _ _))
    simp only [Option.some.injEq] at hk
    rw [hk]
    exact hlegal


end NTetris
